import Mathlib

/-!
Verification development for the inphest co-diversification simulator core
(`src/inphest/model.py`, `src/inphest/error.py`).

The embedding models the per-replicate state of one symbiont lineage
(`SymbiontLineage`), the symbiont phylogeny operations (`SymbiontPhylogeny`),
the host-lineage extancy state machine (`HostLineage`), host-history
validation (`HostHistory.validate`) and the model-configuration parser
(`InphestModel.parse_definition` / `write_model`).

Conventions:
* hosts are `Fin nh`, areas are `Fin na`;
* the (fixed, per-scenario) current area occupancy of each host lineage is a
  function `occ : Fin nh → Finset (Fin na)` (`HostLineage._current_areas`);
  `Area.host_lineages` is derived from it;
* Python exceptions are modelled by the `Res` result type, each error
  constructor carrying the object state at the moment the exception
  propagates;
* floating-point times and rates are modelled as rationals.
-/

namespace Inphest

/-- Host occupancy map: for each host lineage, the set of areas it currently
occupies (`HostLineage._current_areas`, assumed fixed during a scenario). -/
def Occ (nh na : Nat) : Type := Fin nh → Finset (Fin na)

/-- Result of an operation that can raise a Python exception.  Each error
constructor carries the state of the object at the moment the exception
propagates out of the method.  `nullDistributionEx` additionally carries
`lineage.index`, since `SymbiontLineage.NullDistributionException` stores the
offending lineage (model.py lines 789-791). -/
inductive Res (α : Type) where
  | ok : α → Res α
  | nullDistributionEx : Nat → α → Res α
  | keyErrorEx : α → Res α
  | assertErrorEx : α → Res α
  | valueErrorEx : α → Res α
  | totalExtinctionEx : α → Res α
deriving DecidableEq

/-- State of one `SymbiontLineage` (model.py lines 784-810): the dense
host×area occupancy matrix `_host_area_distribution` (integer cells), the two
derived caches `_infected_hosts` and `_infected_areas`, and — decomposed
per-lineage — the set of areas `a` whose back-reference set
`a.symbiont_lineages` contains this lineage (`areaSym`).  `index` and
`isExtant` are the synonymous constructor fields. -/
structure SL (nh na : Nat) where
  index : Nat
  isExtant : Bool
  dist : Fin nh → Fin na → Nat
  infectedHosts : Finset (Fin nh)
  infectedAreas : Finset (Fin na)
  areaSym : Finset (Fin na)
deriving DecidableEq

/-- Freshly constructed `SymbiontLineage(index, host_system)`: extant, all
matrix cells 0, both caches empty, registered on no area. -/
def freshSL (nh na : Nat) (index : Nat) : SL nh na :=
  ⟨index, true, fun _ _ => 0, ∅, ∅, ∅⟩

/-- Pointwise update of one matrix cell. -/
def sdSet {nh na : Nat} (d : Fin nh → Fin na → Nat) (h : Fin nh) (a : Fin na)
    (v : Nat) : Fin nh → Fin na → Nat :=
  fun h' a' => if h' = h ∧ a' = a then v else d h' a'

/-- Derived `Area.host_lineages` back-reference set: the hosts currently
occupying area `a` (maintained symmetrically by `HostLineage.add_area` and
friends, model.py lines 540-553). -/
def areaHostLineages {nh na : Nat} (occ : Occ nh na) (a : Fin na) :
    Finset (Fin nh) :=
  Finset.univ.filter (fun h => a ∈ occ h)

/-- `SymbiontLineage.sync_area_cache` (model.py lines 865-884).  The source
computes `host_lineage_iter` from `search_all_hosts` but the `for` loop then
iterates over `area.host_lineages` regardless, so the parameter has no effect
on the result; the embedding reproduces this.  The `for`/`else`: if some
scanned host has the cell set, the area is (re-)added to both the cache and
the back-reference; otherwise `set.remove` is attempted on both, raising
`KeyError` if the element is absent (first on `_infected_areas`, then on
`area.symbiont_lineages`). -/
def syncAreaCache {nh na : Nat} (occ : Occ nh na) (s : SL nh na) (a : Fin na)
    (searchAllHosts : Bool) : Res (SL nh na) :=
  -- the source binds host_lineage_iter from search_all_hosts here, but that
  -- iterator is dead: the loop below scans area.host_lineages regardless,
  -- so the parameter does not influence the result
  if ((areaHostLineages occ a).filter (fun h => s.dist h a = 1)).Nonempty then
    .ok { s with infectedAreas := insert a s.infectedAreas,
                 areaSym := insert a s.areaSym }
  else if a ∈ s.infectedAreas then
    if a ∈ s.areaSym then
      .ok { s with infectedAreas := s.infectedAreas.erase a,
                   areaSym := s.areaSym.erase a }
    else
      .keyErrorEx { s with infectedAreas := s.infectedAreas.erase a }
  else
    .keyErrorEx s

/-- `SymbiontLineage.sync_host_cache` (model.py lines 886-903): scan the given
host's areas (all areas of the system when `search_all_areas`, otherwise the
host's current areas); if some scanned area has the cell set, add the host to
`_infected_hosts`, otherwise `set.remove` it (KeyError if absent). -/
def syncHostCache {nh na : Nat} (occ : Occ nh na) (s : SL nh na) (h : Fin nh)
    (searchAllAreas : Bool) : Res (SL nh na) :=
  if ((if searchAllAreas then Finset.univ else occ h).filter
      (fun a => s.dist h a = 1)).Nonempty then
    .ok { s with infectedHosts := insert h s.infectedHosts }
  else if h ∈ s.infectedHosts then
    .ok { s with infectedHosts := s.infectedHosts.erase h }
  else
    .keyErrorEx s

/-- `SymbiontLineage.check_for_null_distribution` (model.py lines 905-910):
raise `NullDistributionException(lineage=self)` when either cache is empty. -/
def checkForNullDistribution {nh na : Nat} (s : SL nh na) : Res (SL nh na) :=
  if s.infectedHosts = ∅ ∨ s.infectedAreas = ∅ then
    .nullDistributionEx s.index s
  else
    .ok s

/-- `SymbiontLineage.add_host_in_area` (model.py lines 821-837).  With an
explicit area: assert the host currently occupies it, set the cell, register
on the area, add the area and host to the caches.  Without an area the loop
over `host_lineage.current_area_iter()` performs the same per-area updates for
every currently occupied area (a Python set is iterated in unspecified order;
all updates commute, so the net effect below is exact), then adds the host. -/
def addHostInArea {nh na : Nat} (occ : Occ nh na) (s : SL nh na) (h : Fin nh) :
    Option (Fin na) → Res (SL nh na)
  | none =>
    .ok { s with
      dist := fun h' a' => if h' = h ∧ a' ∈ occ h then 1 else s.dist h' a',
      areaSym := s.areaSym ∪ occ h,
      infectedAreas := s.infectedAreas ∪ occ h,
      infectedHosts := insert h s.infectedHosts }
  | some a =>
    if a ∈ occ h then
      .ok { s with
        dist := sdSet s.dist h a 1,
        areaSym := insert a s.areaSym,
        infectedAreas := insert a s.infectedAreas,
        infectedHosts := insert h s.infectedHosts }
    else
      .assertErrorEx s

/-- Exception propagation: continue with the state on success, otherwise let
the exception escape. -/
def resBind {α : Type} : Res α → (α → Res α) → Res α
  | .ok s, f => f s
  | e, _ => e

/-- Loop body of `SymbiontLineage.remove_host` (model.py lines 858-861): for
each area currently occupied by the host, if the cell is positive, zero it and
re-synchronize that area's cache.  The Python set iteration order is
unspecified; the embedding fixes ascending area order (the net effect is
order-independent from consistent states, which is all the theorems use). -/
def removeHostAreas {nh na : Nat} (occ : Occ nh na) (h : Fin nh) :
    SL nh na → List (Fin na) → Res (SL nh na)
  | s, [] => .ok s
  | s, a :: rest =>
    if s.dist h a > 0 then
      resBind (syncAreaCache occ { s with dist := sdSet s.dist h a 0 } a false)
        (fun s' => removeHostAreas occ h s' rest)
    else
      removeHostAreas occ h s rest

/-- `SymbiontLineage.remove_host` (model.py lines 854-863): zero the host's
cells area-by-area with cache re-synchronization, `set.remove` the host from
`_infected_hosts` (KeyError if absent), then run the null-distribution
check. -/
def removeHost {nh na : Nat} (occ : Occ nh na) (s : SL nh na) (h : Fin nh) :
    Res (SL nh na) :=
  resBind (removeHostAreas occ h s ((occ h).sort (· ≤ ·))) (fun s1 =>
    if h ∈ s1.infectedHosts then
      checkForNullDistribution { s1 with infectedHosts := s1.infectedHosts.erase h }
    else
      .keyErrorEx s1)

/-- `SymbiontLineage.remove_host_in_area` (model.py lines 839-852).  Without
an area this is `remove_host`.  With an area: assert the host currently
occupies it, zero the cell, re-synchronize the area cache then the host cache,
and finally run the null-distribution check. -/
def removeHostInArea {nh na : Nat} (occ : Occ nh na) (s : SL nh na)
    (h : Fin nh) : Option (Fin na) → Res (SL nh na)
  | none => removeHost occ s h
  | some a =>
    if a ∈ occ h then
      resBind (syncAreaCache occ { s with dist := sdSet s.dist h a 0 } a false)
        (fun s2 => resBind (syncHostCache occ s2 h false)
          (fun s3 => checkForNullDistribution s3))
    else
      .assertErrorEx s

/-- `SymbiontLineage.clear_distribution` (model.py lines 954-964): zero every
cell, `set.remove` this lineage from the back-reference of every infected area
(KeyError if some infected area does not list the lineage; the source iterates
a Python set, so the partially mutated state at such a raise is unspecified —
the embedding reports the zeroed matrix), then reset both caches. -/
def clearDistribution {nh na : Nat} (s : SL nh na) : Res (SL nh na) :=
  if s.infectedAreas ⊆ s.areaSym then
    .ok { s with
      dist := fun _ _ => 0,
      areaSym := s.areaSym \ s.infectedAreas,
      infectedHosts := ∅,
      infectedAreas := ∅ }
  else
    .keyErrorEx { s with dist := fun _ _ => 0 }

/-- `SymbiontLineage.update_distribution(other)` (model.py lines 966-975): for
every pair with `other`'s cell set and self's cell clear,
`add_host_in_area(host, area)` — whose assertion requires the host to occupy
the area — then union `other`'s two caches into self's.  Each pair's condition
depends only on that pair's own cells, so the dict iteration order does not
affect the successful result; on an assertion failure the partially mutated
state is unspecified (the embedding reports the pre-state). -/
def updateDistribution {nh na : Nat} (occ : Occ nh na) (s other : SL nh na) :
    Res (SL nh na) :=
  if ∀ h a, other.dist h a = 1 → s.dist h a = 0 → a ∈ occ h then
    .ok { s with
      dist := fun h a => if other.dist h a = 1 ∧ s.dist h a = 0 then 1 else s.dist h a,
      areaSym := s.areaSym ∪
        (Finset.univ.filter (fun a => ∃ h, other.dist h a = 1 ∧ s.dist h a = 0)),
      infectedAreas := (s.infectedAreas ∪
        (Finset.univ.filter (fun a => ∃ h, other.dist h a = 1 ∧ s.dist h a = 0))) ∪
        other.infectedAreas,
      infectedHosts := (s.infectedHosts ∪
        (Finset.univ.filter (fun h => ∃ a, other.dist h a = 1 ∧ s.dist h a = 0))) ∪
        other.infectedHosts }
  else
    .assertErrorEx s

/-- Bidirectional-consistency invariant of a `SymbiontLineage` relative to the
host occupancy `occ`: cells are 0/1; a set cell names an area its host
currently occupies (guaranteed at insertion by `add_host_in_area`'s
assertion); both caches equal their matrix derivations; and the area
back-references agree with the infected-area cache. -/
def Inv {nh na : Nat} (occ : Occ nh na) (s : SL nh na) : Prop :=
  (∀ h a, s.dist h a = 0 ∨ s.dist h a = 1) ∧
  (∀ h a, s.dist h a = 1 → a ∈ occ h) ∧
  (∀ h, h ∈ s.infectedHosts ↔ ∃ a, s.dist h a = 1) ∧
  (∀ a, a ∈ s.infectedAreas ↔ ∃ h, s.dist h a = 1) ∧
  s.areaSym = s.infectedAreas

instance {nh na : Nat} (occ : Occ nh na) (s : SL nh na) :
    Decidable (Inv occ s) :=
  inferInstanceAs (Decidable
    ((∀ h a, s.dist h a = 0 ∨ s.dist h a = 1) ∧
     (∀ h a, s.dist h a = 1 → a ∈ occ h) ∧
     (∀ h, h ∈ s.infectedHosts ↔ ∃ a, s.dist h a = 1) ∧
     (∀ a, a ∈ s.infectedAreas ↔ ∃ h, s.dist h a = 1) ∧
     s.areaSym = s.infectedAreas))

/-- One public mutator call on a `SymbiontLineage`.  `clearThenUpdate other`
is `clear_distribution()` immediately followed by `update_distribution(other)`
(the retire-then-repopulate composite used by `split_lineage`). -/
inductive Call (nh na : Nat) where
  | addHostInArea : Fin nh → Option (Fin na) → Call nh na
  | removeHostInArea : Fin nh → Option (Fin na) → Call nh na
  | clearThenUpdate : SL nh na → Call nh na

/-- Apply one public mutator call. -/
def applyCall {nh na : Nat} (occ : Occ nh na) (s : SL nh na) :
    Call nh na → Res (SL nh na)
  | .addHostInArea h a? => addHostInArea occ s h a?
  | .removeHostInArea h a? => removeHostInArea occ s h a?
  | .clearThenUpdate other =>
    resBind (clearDistribution s) (fun s1 => updateDistribution occ s1 other)

/-- How a sequence of calls stopped: ran to completion, or at the first
escaping exception. -/
inductive RunStop where
  | completed : RunStop
  | nullDistribution : Nat → RunStop
  | keyError : RunStop
  | assertError : RunStop
  | valueError : RunStop
  | totalExtinction : RunStop
deriving DecidableEq

/-- Run a sequence of calls, stopping at the first exception; the returned
state is the lineage state at the stopping point. -/
def runCalls {nh na : Nat} (occ : Occ nh na) :
    SL nh na → List (Call nh na) → SL nh na × RunStop
  | s, [] => (s, .completed)
  | s, c :: cs =>
    match applyCall occ s c with
    | .ok s' => runCalls occ s' cs
    | .nullDistributionEx i s' => (s', .nullDistribution i)
    | .keyErrorEx s' => (s', .keyError)
    | .assertErrorEx s' => (s', .assertError)
    | .valueErrorEx s' => (s', .valueError)
    | .totalExtinctionEx s' => (s', .totalExtinction)

/-- Documented precondition of each public mutator: a named area must
currently be occupied by the named host; an area-less add requires the host to
occupy at least one area; the composite clear-then-update requires the source
lineage to be consistent and non-null. -/
def callPre {nh na : Nat} (occ : Occ nh na) : Call nh na → Prop
  | .addHostInArea h none => (occ h).Nonempty
  | .addHostInArea h (some a) => a ∈ occ h
  | .removeHostInArea _ none => True
  | .removeHostInArea h (some a) => a ∈ occ h
  | .clearThenUpdate other =>
    Inv occ other ∧ other.infectedHosts.Nonempty ∧ other.infectedAreas.Nonempty

/-- Calls considered by the non-null-invariant claim: `add_host_in_area` and
`remove_host_in_area` with an explicitly named area that the named host
currently occupies. -/
def namedAreaCall {nh na : Nat} (occ : Occ nh na) : Call nh na → Prop
  | .addHostInArea h (some a) => a ∈ occ h
  | .removeHostInArea h (some a) => a ∈ occ h
  | _ => False

/-- Non-null distribution: both derived caches are non-empty. -/
def NonNull {nh na : Nat} (s : SL nh na) : Prop :=
  s.infectedHosts.Nonempty ∧ s.infectedAreas.Nonempty

instance {nh na : Nat} (s : SL nh na) : Decidable (NonNull s) :=
  inferInstanceAs
    (Decidable (s.infectedHosts.Nonempty ∧ s.infectedAreas.Nonempty))

section InvLemmas

variable {nh na : Nat} {occ : Occ nh na}

theorem sdSet_same {d : Fin nh → Fin na → Nat} {h : Fin nh} {a : Fin na}
    (hd : d h a = 0) : sdSet d h a 0 = d := by
  funext h' a'
  unfold sdSet
  by_cases hc : h' = h ∧ a' = a
  · rw [if_pos hc, hc.1, hc.2, hd]
  · rw [if_neg hc]

theorem sdSet_zero_eq_one_iff {d : Fin nh → Fin na → Nat} {h : Fin nh}
    {a : Fin na} (h' : Fin nh) (a' : Fin na) :
    sdSet d h a 0 h' a' = 1 ↔ d h' a' = 1 ∧ ¬(h' = h ∧ a' = a) := by
  unfold sdSet
  by_cases hc : h' = h ∧ a' = a
  · simp [hc]
  · simp [hc]

theorem sdSet_one_eq_one_iff {d : Fin nh → Fin na → Nat} {h : Fin nh}
    {a : Fin na} (h' : Fin nh) (a' : Fin na) :
    sdSet d h a 1 h' a' = 1 ↔ (h' = h ∧ a' = a) ∨ d h' a' = 1 := by
  unfold sdSet
  by_cases hc : h' = h ∧ a' = a
  · simp [hc]
  · simp [hc]

theorem add_some_ok {s : SL nh na} {h : Fin nh} {a : Fin na}
    (hInv : Inv occ s) (hpre : a ∈ occ h) :
    ∃ s', addHostInArea occ s h (some a) = .ok s' ∧ Inv occ s' ∧ NonNull s' ∧
      s'.index = s.index ∧ s'.isExtant = s.isExtant := by
  obtain ⟨h01, hocc, hHosts, hAreas, hSym⟩ := hInv
  have p1 : ∀ h' a', sdSet s.dist h a 1 h' a' = 0 ∨ sdSet s.dist h a 1 h' a' = 1 := by
    intro h' a'
    unfold sdSet
    by_cases hc : h' = h ∧ a' = a
    · rw [if_pos hc]; right; rfl
    · rw [if_neg hc]; exact h01 h' a'
  have p2 : ∀ h' a', sdSet s.dist h a 1 h' a' = 1 → a' ∈ occ h' := by
    intro h' a' hcell
    rcases (sdSet_one_eq_one_iff h' a').1 hcell with ⟨rfl, rfl⟩ | hc
    · exact hpre
    · exact hocc h' a' hc
  have pcell : sdSet s.dist h a 1 h a = 1 :=
    (sdSet_one_eq_one_iff h a).2 (Or.inl ⟨rfl, rfl⟩)
  have p3 : ∀ h', h' ∈ insert h s.infectedHosts ↔
      ∃ a', sdSet s.dist h a 1 h' a' = 1 := by
    intro h'
    simp only [Finset.mem_insert]
    constructor
    · rintro (rfl | hmem)
      · exact ⟨a, pcell⟩
      · obtain ⟨a', hc⟩ := (hHosts h').1 hmem
        exact ⟨a', (sdSet_one_eq_one_iff h' a').2 (Or.inr hc)⟩
    · rintro ⟨a', hc⟩
      rcases (sdSet_one_eq_one_iff h' a').1 hc with ⟨rfl, _⟩ | hc2
      · left; rfl
      · right; exact (hHosts h').2 ⟨a', hc2⟩
  have p4 : ∀ a', a' ∈ insert a s.infectedAreas ↔
      ∃ h', sdSet s.dist h a 1 h' a' = 1 := by
    intro a'
    simp only [Finset.mem_insert]
    constructor
    · rintro (rfl | hmem)
      · exact ⟨h, pcell⟩
      · obtain ⟨h', hc⟩ := (hAreas a').1 hmem
        exact ⟨h', (sdSet_one_eq_one_iff h' a').2 (Or.inr hc)⟩
    · rintro ⟨h', hc⟩
      rcases (sdSet_one_eq_one_iff h' a').1 hc with ⟨_, rfl⟩ | hc2
      · left; rfl
      · right; exact (hAreas a').2 ⟨h', hc2⟩
  have p5 : insert a s.areaSym = insert a s.infectedAreas := by rw [hSym]
  exact ⟨⟨s.index, s.isExtant, sdSet s.dist h a 1, insert h s.infectedHosts,
      insert a s.infectedAreas, insert a s.areaSym⟩,
    by simp only [addHostInArea, if_pos hpre],
    ⟨p1, p2, p3, p4, p5⟩,
    ⟨⟨h, Finset.mem_insert_self h _⟩, ⟨a, Finset.mem_insert_self a _⟩⟩,
    rfl, rfl⟩

theorem add_none_ok {s : SL nh na} {h : Fin nh}
    (hInv : Inv occ s) (hpre : (occ h).Nonempty) :
    ∃ s', addHostInArea occ s h none = .ok s' ∧ Inv occ s' ∧ NonNull s' := by
  obtain ⟨h01, hocc, hHosts, hAreas, hSym⟩ := hInv
  obtain ⟨a0, ha0⟩ := hpre
  let d2 : Fin nh → Fin na → Nat :=
    fun h' a' => if h' = h ∧ a' ∈ occ h then 1 else s.dist h' a'
  have hone : ∀ a', a' ∈ occ h → d2 h a' = 1 := by
    intro a' hmem
    exact if_pos ⟨rfl, hmem⟩
  have hout : ∀ h' a', ¬(h' = h ∧ a' ∈ occ h) → d2 h' a' = s.dist h' a' := by
    intro h' a' hc
    exact if_neg hc
  have p1 : ∀ h' a', d2 h' a' = 0 ∨ d2 h' a' = 1 := by
    intro h' a'
    by_cases hc : h' = h ∧ a' ∈ occ h
    · right; rw [hc.1]; exact hone a' hc.2
    · rw [hout h' a' hc]; exact h01 h' a'
  have p2 : ∀ h' a', d2 h' a' = 1 → a' ∈ occ h' := by
    intro h' a' hcell
    by_cases hc : h' = h ∧ a' ∈ occ h
    · rw [hc.1]; exact hc.2
    · rw [hout h' a' hc] at hcell; exact hocc h' a' hcell
  have hold : ∀ h' a', s.dist h' a' = 1 → d2 h' a' = 1 := by
    intro h' a' hc
    by_cases hc2 : h' = h ∧ a' ∈ occ h
    · rw [hc2.1]; exact hone a' hc2.2
    · rw [hout h' a' hc2]; exact hc
  have p3 : ∀ h', h' ∈ insert h s.infectedHosts ↔ ∃ a', d2 h' a' = 1 := by
    intro h'
    simp only [Finset.mem_insert]
    constructor
    · rintro (rfl | hmem)
      · exact ⟨a0, hone a0 ha0⟩
      · obtain ⟨a', hc⟩ := (hHosts h').1 hmem
        exact ⟨a', hold h' a' hc⟩
    · rintro ⟨a', hc⟩
      by_cases hc2 : h' = h ∧ a' ∈ occ h
      · left; exact hc2.1
      · rw [hout h' a' hc2] at hc
        right; exact (hHosts h').2 ⟨a', hc⟩
  have p4 : ∀ a', a' ∈ s.infectedAreas ∪ occ h ↔ ∃ h', d2 h' a' = 1 := by
    intro a'
    simp only [Finset.mem_union]
    constructor
    · rintro (hmem | hmem)
      · obtain ⟨h', hc⟩ := (hAreas a').1 hmem
        exact ⟨h', hold h' a' hc⟩
      · exact ⟨h, hone a' hmem⟩
    · rintro ⟨h', hc⟩
      by_cases hc2 : h' = h ∧ a' ∈ occ h
      · right; exact hc2.2
      · rw [hout h' a' hc2] at hc
        left; exact (hAreas a').2 ⟨h', hc⟩
  have p5 : s.areaSym ∪ occ h = s.infectedAreas ∪ occ h := by rw [hSym]
  exact ⟨⟨s.index, s.isExtant, d2, insert h s.infectedHosts,
      s.infectedAreas ∪ occ h, s.areaSym ∪ occ h⟩,
    rfl,
    ⟨p1, p2, p3, p4, p5⟩,
    ⟨⟨h, Finset.mem_insert_self h _⟩, ⟨a0, Finset.mem_union_right _ ha0⟩⟩⟩

theorem resBind_ok {α : Type} (s : α) (f : α → Res α) :
    resBind (.ok s) f = f s := rfl

theorem syncAreaCache_eq (s : SL nh na) (a : Fin na) (b : Bool) :
    syncAreaCache occ s a b =
      if ((areaHostLineages occ a).filter (fun h => s.dist h a = 1)).Nonempty then
        .ok ⟨s.index, s.isExtant, s.dist, s.infectedHosts,
          insert a s.infectedAreas, insert a s.areaSym⟩
      else if a ∈ s.infectedAreas then
        if a ∈ s.areaSym then
          .ok ⟨s.index, s.isExtant, s.dist, s.infectedHosts,
            s.infectedAreas.erase a, s.areaSym.erase a⟩
        else
          .keyErrorEx ⟨s.index, s.isExtant, s.dist, s.infectedHosts,
            s.infectedAreas.erase a, s.areaSym⟩
      else .keyErrorEx s := rfl

theorem syncHostCache_false_eq (s : SL nh na) (h : Fin nh) :
    syncHostCache occ s h false =
      if ((occ h).filter (fun a => s.dist h a = 1)).Nonempty then
        .ok ⟨s.index, s.isExtant, s.dist, insert h s.infectedHosts,
          s.infectedAreas, s.areaSym⟩
      else if h ∈ s.infectedHosts then
        .ok ⟨s.index, s.isExtant, s.dist, s.infectedHosts.erase h,
          s.infectedAreas, s.areaSym⟩
      else .keyErrorEx s := rfl

theorem checkForNull_eq (s : SL nh na) :
    checkForNullDistribution s =
      if s.infectedHosts = ∅ ∨ s.infectedAreas = ∅ then
        .nullDistributionEx s.index s
      else .ok s := rfl

theorem areaScanNonempty_iff {d : Fin nh → Fin na → Nat}
    (hocc : ∀ h' a', d h' a' = 1 → a' ∈ occ h') (a : Fin na) :
    ((areaHostLineages occ a).filter (fun h => d h a = 1)).Nonempty ↔
      ∃ h', d h' a = 1 := by
  constructor
  · rintro ⟨h', hm⟩
    exact ⟨h', (Finset.mem_filter.1 hm).2⟩
  · rintro ⟨h', hc⟩
    refine ⟨h', Finset.mem_filter.2 ⟨?_, hc⟩⟩
    unfold areaHostLineages
    exact Finset.mem_filter.2 ⟨Finset.mem_univ _, hocc h' a hc⟩

theorem hostScanNonempty_iff {d : Fin nh → Fin na → Nat}
    (hocc : ∀ h' a', d h' a' = 1 → a' ∈ occ h') (h : Fin nh) :
    ((occ h).filter (fun a => d h a = 1)).Nonempty ↔
      ∃ a', d h a' = 1 := by
  constructor
  · rintro ⟨a', hm⟩
    exact ⟨a', (Finset.mem_filter.1 hm).2⟩
  · rintro ⟨a', hc⟩
    exact ⟨a', Finset.mem_filter.2 ⟨hocc h a' hc, hc⟩⟩

theorem inv_after_zero {s : SL nh na} {h : Fin nh} {a : Fin na}
    (hInv : Inv occ s)
    {hosts2 : Finset (Fin nh)} {areas2 sym2 : Finset (Fin na)}
    (hH : ∀ h', h' ∈ hosts2 ↔ ∃ a', sdSet s.dist h a 0 h' a' = 1)
    (hA : ∀ a', a' ∈ areas2 ↔ ∃ h', sdSet s.dist h a 0 h' a' = 1)
    (hY : sym2 = areas2) :
    Inv occ ⟨s.index, s.isExtant, sdSet s.dist h a 0, hosts2, areas2, sym2⟩ := by
  obtain ⟨h01, hocc, _, _, _⟩ := hInv
  refine ⟨?_, ?_, hH, hA, hY⟩
  · intro h' a'
    show sdSet s.dist h a 0 h' a' = 0 ∨ sdSet s.dist h a 0 h' a' = 1
    by_cases hc : h' = h ∧ a' = a
    · left; exact if_pos hc
    · have he : sdSet s.dist h a 0 h' a' = s.dist h' a' := if_neg hc
      rw [he]; exact h01 h' a'
  · intro h' a' hcell
    exact hocc h' a' ((sdSet_zero_eq_one_iff h' a').1 hcell).1

theorem resBind_keyError {α : Type} (s : α) (f : α → Res α) :
    resBind (.keyErrorEx s) f = .keyErrorEx s := rfl

theorem remove_some_cell0 {s : SL nh na} {h : Fin nh} {a : Fin na}
    (hInv : Inv occ s) (hpre : a ∈ occ h) (hcell : s.dist h a = 0) :
    removeHostInArea occ s h (some a) = .ok s ∨
      removeHostInArea occ s h (some a) = .keyErrorEx s := by
  obtain ⟨h01, hocc, hHosts, hAreas, hSym⟩ := hInv
  have hs1 : (⟨s.index, s.isExtant, sdSet s.dist h a 0, s.infectedHosts,
      s.infectedAreas, s.areaSym⟩ : SL nh na) = s := by
    rw [sdSet_same hcell]
  have hstep : removeHostInArea occ s h (some a) =
      resBind (syncAreaCache occ s a false) (fun s2 =>
        resBind (syncHostCache occ s2 h false)
          (fun s3 => checkForNullDistribution s3)) := by
    simp only [removeHostInArea, if_pos hpre]
    rw [hs1]
  rw [hstep]
  by_cases hP : ((areaHostLineages occ a).filter (fun h' => s.dist h' a = 1)).Nonempty
  · have hamem : a ∈ s.infectedAreas := by
      obtain ⟨h', hm⟩ := hP
      exact (hAreas a).2 ⟨h', (Finset.mem_filter.1 hm).2⟩
    have hasym : a ∈ s.areaSym := by rw [hSym]; exact hamem
    have hsyncA : syncAreaCache occ s a false = .ok s := by
      rw [syncAreaCache_eq, if_pos hP, Finset.insert_eq_self.mpr hamem,
        Finset.insert_eq_self.mpr hasym]
    rw [hsyncA, resBind_ok]
    by_cases hQ : ((occ h).filter (fun a' => s.dist h a' = 1)).Nonempty
    · have hhmem : h ∈ s.infectedHosts := by
        obtain ⟨a', hm⟩ := hQ
        exact (hHosts h).2 ⟨a', (Finset.mem_filter.1 hm).2⟩
      have hsyncH : syncHostCache occ s h false = .ok s := by
        rw [syncHostCache_false_eq, if_pos hQ, Finset.insert_eq_self.mpr hhmem]
      rw [hsyncH, resBind_ok]
      left
      rw [checkForNull_eq, if_neg]
      push_neg
      exact ⟨Finset.nonempty_iff_ne_empty.1 ⟨h, hhmem⟩,
        Finset.nonempty_iff_ne_empty.1 ⟨a, hamem⟩⟩
    · have hhnot : h ∉ s.infectedHosts := by
        intro hmem
        obtain ⟨a', hc⟩ := (hHosts h).1 hmem
        exact hQ ⟨a', Finset.mem_filter.2 ⟨hocc h a' hc, hc⟩⟩
      have hsyncH : syncHostCache occ s h false = .keyErrorEx s := by
        rw [syncHostCache_false_eq, if_neg hQ, if_neg hhnot]
      rw [hsyncH, resBind_keyError]
      right; rfl
  · have hanot : a ∉ s.infectedAreas := by
      intro hmem
      obtain ⟨h', hc⟩ := (hAreas a).1 hmem
      exact hP ⟨h', Finset.mem_filter.2
        ⟨Finset.mem_filter.2 ⟨Finset.mem_univ _, hocc h' a hc⟩, hc⟩⟩
    have hsyncA : syncAreaCache occ s a false = .keyErrorEx s := by
      rw [syncAreaCache_eq, if_neg hP, if_neg hanot]
    rw [hsyncA, resBind_keyError]
    right; rfl

theorem hosts_keep_after_zero {s : SL nh na} {h : Fin nh} {a : Fin na}
    (hHosts : ∀ h', h' ∈ s.infectedHosts ↔ ∃ a', s.dist h' a' = 1)
    (hQ : ∃ a', sdSet s.dist h a 0 h a' = 1) :
    ∀ h', h' ∈ s.infectedHosts ↔ ∃ a', sdSet s.dist h a 0 h' a' = 1 := by
  intro h'
  constructor
  · intro hm
    by_cases hch : h' = h
    · subst hch; exact hQ
    · obtain ⟨a'', hc⟩ := (hHosts h').1 hm
      exact ⟨a'', (sdSet_zero_eq_one_iff h' a'').2 ⟨hc, fun hcc => hch hcc.1⟩⟩
  · rintro ⟨a'', hc⟩
    exact (hHosts h').2 ⟨a'', ((sdSet_zero_eq_one_iff h' a'').1 hc).1⟩

theorem hosts_erase_after_zero {s : SL nh na} {h : Fin nh} {a : Fin na}
    (hHosts : ∀ h', h' ∈ s.infectedHosts ↔ ∃ a', s.dist h' a' = 1)
    (hQ : ¬ ∃ a', sdSet s.dist h a 0 h a' = 1) :
    ∀ h', h' ∈ s.infectedHosts.erase h ↔
      ∃ a', sdSet s.dist h a 0 h' a' = 1 := by
  intro h'
  constructor
  · intro hm
    obtain ⟨hne, hmem⟩ := Finset.mem_erase.1 hm
    obtain ⟨a'', hc⟩ := (hHosts h').1 hmem
    exact ⟨a'', (sdSet_zero_eq_one_iff h' a'').2 ⟨hc, fun hcc => hne hcc.1⟩⟩
  · rintro ⟨a'', hc⟩
    have hne : h' ≠ h := by
      intro hch; subst hch; exact hQ ⟨a'', hc⟩
    exact Finset.mem_erase.2
      ⟨hne, (hHosts h').2 ⟨a'', ((sdSet_zero_eq_one_iff h' a'').1 hc).1⟩⟩

theorem areas_keep_after_zero {s : SL nh na} {h : Fin nh} {a : Fin na}
    (hAreas : ∀ a', a' ∈ s.infectedAreas ↔ ∃ h', s.dist h' a' = 1)
    (hP : ∃ h', sdSet s.dist h a 0 h' a = 1) :
    ∀ a', a' ∈ s.infectedAreas ↔ ∃ h', sdSet s.dist h a 0 h' a' = 1 := by
  intro a'
  constructor
  · intro hm
    by_cases hca : a' = a
    · subst hca; exact hP
    · obtain ⟨h'', hc⟩ := (hAreas a').1 hm
      exact ⟨h'', (sdSet_zero_eq_one_iff h'' a').2 ⟨hc, fun hcc => hca hcc.2⟩⟩
  · rintro ⟨h'', hc⟩
    exact (hAreas a').2 ⟨h'', ((sdSet_zero_eq_one_iff h'' a').1 hc).1⟩

theorem areas_erase_after_zero {s : SL nh na} {h : Fin nh} {a : Fin na}
    (hAreas : ∀ a', a' ∈ s.infectedAreas ↔ ∃ h', s.dist h' a' = 1)
    (hP : ¬ ∃ h', sdSet s.dist h a 0 h' a = 1) :
    ∀ a', a' ∈ s.infectedAreas.erase a ↔
      ∃ h', sdSet s.dist h a 0 h' a' = 1 := by
  intro a'
  constructor
  · intro hm
    obtain ⟨hne, hmem⟩ := Finset.mem_erase.1 hm
    obtain ⟨h'', hc⟩ := (hAreas a').1 hmem
    exact ⟨h'', (sdSet_zero_eq_one_iff h'' a').2 ⟨hc, fun hcc => hne hcc.2⟩⟩
  · rintro ⟨h'', hc⟩
    have hne : a' ≠ a := by
      intro hca; subst hca; exact hP ⟨h'', hc⟩
    exact Finset.mem_erase.2
      ⟨hne, (hAreas a').2 ⟨h'', ((sdSet_zero_eq_one_iff h'' a').1 hc).1⟩⟩

theorem remove_some_cell1 {s : SL nh na} {h : Fin nh} {a : Fin na}
    (hInv : Inv occ s) (hpre : a ∈ occ h) (hcell : s.dist h a = 1) :
    (∃ s', removeHostInArea occ s h (some a) = .ok s' ∧ Inv occ s' ∧
      NonNull s' ∧ s'.index = s.index ∧ s'.isExtant = s.isExtant ∧
      (∃ h' a', s.dist h' a' = 1 ∧ ¬(h' = h ∧ a' = a))) ∨
    ((∀ h' a', s.dist h' a' = 1 → h' = h ∧ a' = a) ∧
      ∃ s', removeHostInArea occ s h (some a) =
        .nullDistributionEx s.index s') := by
  have h01 := hInv.1
  have hocc := hInv.2.1
  have hHosts := hInv.2.2.1
  have hAreas := hInv.2.2.2.1
  have hSym := hInv.2.2.2.2
  have hsd0 : sdSet s.dist h a 0 h a = 0 := if_pos ⟨rfl, rfl⟩
  have hsdother : ∀ h' a', ¬(h' = h ∧ a' = a) →
      sdSet s.dist h a 0 h' a' = s.dist h' a' := fun h' a' hc => if_neg hc
  have hocc1 : ∀ h' a', sdSet s.dist h a 0 h' a' = 1 → a' ∈ occ h' :=
    fun h' a' hc => hocc h' a' ((sdSet_zero_eq_one_iff h' a').1 hc).1
  have hamem : a ∈ s.infectedAreas := (hAreas a).2 ⟨h, hcell⟩
  have hasym : a ∈ s.areaSym := by rw [hSym]; exact hamem
  have hhmem : h ∈ s.infectedHosts := (hHosts h).2 ⟨a, hcell⟩
  have hstep : removeHostInArea occ s h (some a) =
      resBind (syncAreaCache occ ⟨s.index, s.isExtant, sdSet s.dist h a 0,
        s.infectedHosts, s.infectedAreas, s.areaSym⟩ a false) (fun s2 =>
        resBind (syncHostCache occ s2 h false)
          (fun s3 => checkForNullDistribution s3)) := by
    simp only [removeHostInArea, if_pos hpre]
  rw [hstep]
  by_cases hP : ∃ h', sdSet s.dist h a 0 h' a = 1
  · have hfilterP : ((areaHostLineages occ a).filter
        (fun h' => sdSet s.dist h a 0 h' a = 1)).Nonempty :=
      (areaScanNonempty_iff hocc1 a).mpr hP
    have hsyncA : syncAreaCache occ ⟨s.index, s.isExtant, sdSet s.dist h a 0,
        s.infectedHosts, s.infectedAreas, s.areaSym⟩ a false =
        .ok ⟨s.index, s.isExtant, sdSet s.dist h a 0,
          s.infectedHosts, s.infectedAreas, s.areaSym⟩ := by
      simp only [syncAreaCache_eq]
      rw [if_pos hfilterP, Finset.insert_eq_self.mpr hamem,
        Finset.insert_eq_self.mpr hasym]
    simp only [hsyncA, resBind_ok]
    by_cases hQ : ∃ a', sdSet s.dist h a 0 h a' = 1
    · have hfilterQ : ((occ h).filter
          (fun a' => sdSet s.dist h a 0 h a' = 1)).Nonempty :=
        (hostScanNonempty_iff hocc1 h).mpr hQ
      have hsyncH : syncHostCache occ ⟨s.index, s.isExtant, sdSet s.dist h a 0,
          s.infectedHosts, s.infectedAreas, s.areaSym⟩ h false =
          .ok ⟨s.index, s.isExtant, sdSet s.dist h a 0,
            s.infectedHosts, s.infectedAreas, s.areaSym⟩ := by
        simp only [syncHostCache_false_eq]
        rw [if_pos hfilterQ, Finset.insert_eq_self.mpr hhmem]
      simp only [hsyncH, resBind_ok]
      left
      refine ⟨⟨s.index, s.isExtant, sdSet s.dist h a 0,
        s.infectedHosts, s.infectedAreas, s.areaSym⟩, ?_, ?_, ?_, rfl, rfl, ?_⟩
      · simp only [checkForNull_eq]
        rw [if_neg]
        push_neg
        exact ⟨Finset.nonempty_iff_ne_empty.1 ⟨h, hhmem⟩,
          Finset.nonempty_iff_ne_empty.1 ⟨a, hamem⟩⟩
      · exact inv_after_zero hInv (hosts_keep_after_zero hHosts hQ) (areas_keep_after_zero hAreas hP) hSym
      · exact ⟨⟨h, hhmem⟩, ⟨a, hamem⟩⟩
      · obtain ⟨h2, hc2⟩ := hP
        exact ⟨h2, a, (sdSet_zero_eq_one_iff h2 a).1 hc2⟩
    · have hfilterQn : ¬ ((occ h).filter
          (fun a' => sdSet s.dist h a 0 h a' = 1)).Nonempty :=
        fun hn => hQ ((hostScanNonempty_iff hocc1 h).mp hn)
      have hsyncH : syncHostCache occ ⟨s.index, s.isExtant, sdSet s.dist h a 0,
          s.infectedHosts, s.infectedAreas, s.areaSym⟩ h false =
          .ok ⟨s.index, s.isExtant, sdSet s.dist h a 0,
            s.infectedHosts.erase h, s.infectedAreas, s.areaSym⟩ := by
        simp only [syncHostCache_false_eq]
        rw [if_neg hfilterQn, if_pos hhmem]
      simp only [hsyncH, resBind_ok]
      obtain ⟨h2, hc2⟩ := hP
      have hne2 : h2 ≠ h := by
        intro hch; subst hch
        rw [hsd0] at hc2; exact Nat.zero_ne_one hc2
      have hmem2 : h2 ∈ s.infectedHosts.erase h :=
        Finset.mem_erase.2
          ⟨hne2, (hHosts h2).2 ⟨a, ((sdSet_zero_eq_one_iff h2 a).1 hc2).1⟩⟩
      left
      refine ⟨⟨s.index, s.isExtant, sdSet s.dist h a 0,
        s.infectedHosts.erase h, s.infectedAreas, s.areaSym⟩, ?_, ?_, ?_, rfl, rfl, ?_⟩
      · simp only [checkForNull_eq]
        rw [if_neg]
        push_neg
        exact ⟨Finset.nonempty_iff_ne_empty.1 ⟨h2, hmem2⟩,
          Finset.nonempty_iff_ne_empty.1 ⟨a, hamem⟩⟩
      · exact inv_after_zero hInv (hosts_erase_after_zero hHosts hQ) (areas_keep_after_zero hAreas ⟨h2, hc2⟩) hSym
      · exact ⟨⟨h2, hmem2⟩, ⟨a, hamem⟩⟩
      · exact ⟨h2, a, (sdSet_zero_eq_one_iff h2 a).1 hc2⟩
  · have hfilterPn : ¬ ((areaHostLineages occ a).filter
        (fun h' => sdSet s.dist h a 0 h' a = 1)).Nonempty :=
      fun hn => hP ((areaScanNonempty_iff hocc1 a).mp hn)
    have hsyncA : syncAreaCache occ ⟨s.index, s.isExtant, sdSet s.dist h a 0,
        s.infectedHosts, s.infectedAreas, s.areaSym⟩ a false =
        .ok ⟨s.index, s.isExtant, sdSet s.dist h a 0,
          s.infectedHosts, s.infectedAreas.erase a, s.areaSym.erase a⟩ := by
      simp only [syncAreaCache_eq]
      rw [if_neg hfilterPn, if_pos hamem, if_pos hasym]
    simp only [hsyncA, resBind_ok]
    have hYe : s.areaSym.erase a = s.infectedAreas.erase a := by rw [hSym]
    by_cases hQ : ∃ a', sdSet s.dist h a 0 h a' = 1
    · have hfilterQ : ((occ h).filter
          (fun a' => sdSet s.dist h a 0 h a' = 1)).Nonempty :=
        (hostScanNonempty_iff hocc1 h).mpr hQ
      have hsyncH : syncHostCache occ ⟨s.index, s.isExtant, sdSet s.dist h a 0,
          s.infectedHosts, s.infectedAreas.erase a, s.areaSym.erase a⟩ h false =
          .ok ⟨s.index, s.isExtant, sdSet s.dist h a 0,
            s.infectedHosts, s.infectedAreas.erase a, s.areaSym.erase a⟩ := by
        simp only [syncHostCache_false_eq]
        rw [if_pos hfilterQ, Finset.insert_eq_self.mpr hhmem]
      simp only [hsyncH, resBind_ok]
      obtain ⟨a2, hc2⟩ := hQ
      have hne2 : a2 ≠ a := by
        intro hca; subst hca
        rw [hsd0] at hc2; exact Nat.zero_ne_one hc2
      have hmem2 : a2 ∈ s.infectedAreas.erase a :=
        Finset.mem_erase.2
          ⟨hne2, (hAreas a2).2 ⟨h, ((sdSet_zero_eq_one_iff h a2).1 hc2).1⟩⟩
      left
      refine ⟨⟨s.index, s.isExtant, sdSet s.dist h a 0,
        s.infectedHosts, s.infectedAreas.erase a, s.areaSym.erase a⟩,
        ?_, ?_, ?_, rfl, rfl, ?_⟩
      · simp only [checkForNull_eq]
        rw [if_neg]
        push_neg
        exact ⟨Finset.nonempty_iff_ne_empty.1 ⟨h, hhmem⟩,
          Finset.nonempty_iff_ne_empty.1 ⟨a2, hmem2⟩⟩
      · exact inv_after_zero hInv (hosts_keep_after_zero hHosts ⟨a2, hc2⟩) (areas_erase_after_zero hAreas hP) hYe
      · exact ⟨⟨h, hhmem⟩, ⟨a2, hmem2⟩⟩
      · exact ⟨h, a2, (sdSet_zero_eq_one_iff h a2).1 hc2⟩
    · have hfilterQn : ¬ ((occ h).filter
          (fun a' => sdSet s.dist h a 0 h a' = 1)).Nonempty :=
        fun hn => hQ ((hostScanNonempty_iff hocc1 h).mp hn)
      have hsyncH : syncHostCache occ ⟨s.index, s.isExtant, sdSet s.dist h a 0,
          s.infectedHosts, s.infectedAreas.erase a, s.areaSym.erase a⟩ h false =
          .ok ⟨s.index, s.isExtant, sdSet s.dist h a 0,
            s.infectedHosts.erase h, s.infectedAreas.erase a,
            s.areaSym.erase a⟩ := by
        simp only [syncHostCache_false_eq]
        rw [if_neg hfilterQn, if_pos hhmem]
      simp only [hsyncH, resBind_ok]
      by_cases hex : ∃ h'' a'', sdSet s.dist h a 0 h'' a'' = 1
      · obtain ⟨h2, a2, hc2⟩ := hex
        have hneh : h2 ≠ h := by
          intro hch; subst hch; exact hQ ⟨a2, hc2⟩
        have hnea : a2 ≠ a := by
          intro hca; subst hca; exact hP ⟨h2, hc2⟩
        have hscell : s.dist h2 a2 = 1 := ((sdSet_zero_eq_one_iff h2 a2).1 hc2).1
        have hmemh : h2 ∈ s.infectedHosts.erase h :=
          Finset.mem_erase.2 ⟨hneh, (hHosts h2).2 ⟨a2, hscell⟩⟩
        have hmema : a2 ∈ s.infectedAreas.erase a :=
          Finset.mem_erase.2 ⟨hnea, (hAreas a2).2 ⟨h2, hscell⟩⟩
        left
        refine ⟨⟨s.index, s.isExtant, sdSet s.dist h a 0,
          s.infectedHosts.erase h, s.infectedAreas.erase a, s.areaSym.erase a⟩,
          ?_, ?_, ?_, rfl, rfl, ?_⟩
        · simp only [checkForNull_eq]
          rw [if_neg]
          push_neg
          exact ⟨Finset.nonempty_iff_ne_empty.1 ⟨h2, hmemh⟩,
            Finset.nonempty_iff_ne_empty.1 ⟨a2, hmema⟩⟩
        · exact inv_after_zero hInv (hosts_erase_after_zero hHosts hQ) (areas_erase_after_zero hAreas hP) hYe
        · exact ⟨⟨h2, hmemh⟩, ⟨a2, hmema⟩⟩
        · exact ⟨h2, a2, (sdSet_zero_eq_one_iff h2 a2).1 hc2⟩
      · right
        constructor
        · intro h' a' hc
          by_contra hcc
          exact hex ⟨h', a', by rw [hsdother h' a' hcc]; exact hc⟩
        · have hempty : s.infectedHosts.erase h = ∅ := by
            rw [Finset.eq_empty_iff_forall_not_mem]
            intro h' hm
            obtain ⟨hne, hmem⟩ := Finset.mem_erase.1 hm
            obtain ⟨a'', hc⟩ := (hHosts h').1 hmem
            exact hex ⟨h', a'',
              by rw [hsdother h' a'' (fun hcc => hne hcc.1)]; exact hc⟩
          refine ⟨⟨s.index, s.isExtant, sdSet s.dist h a 0,
            s.infectedHosts.erase h, s.infectedAreas.erase a,
            s.areaSym.erase a⟩, ?_⟩
          simp only [checkForNull_eq]
          rw [if_pos (Or.inl hempty)]

theorem remove_some_null {s : SL nh na} {h : Fin nh} {a : Fin na}
    (hInv : Inv occ s) (hpre : a ∈ occ h) (hcell : s.dist h a = 1)
    (honly : ∀ h' a', s.dist h' a' = 1 → h' = h ∧ a' = a) :
    ∃ s', removeHostInArea occ s h (some a) =
      .nullDistributionEx s.index s' := by
  rcases remove_some_cell1 hInv hpre hcell with
    ⟨s', _, _, _, _, _, h2, a2, hc, hcc⟩ | ⟨_, hres⟩
  · exact absurd (honly h2 a2 hc) hcc
  · exact hres

theorem removeHostAreas_ok (h : Fin nh) :
    ∀ (L : List (Fin na)) (s : SL nh na),
    (∀ h' a', s.dist h' a' = 0 ∨ s.dist h' a' = 1) →
    (∀ h' a', s.dist h' a' = 1 → a' ∈ occ h') →
    (∀ a', a' ∈ s.infectedAreas ↔ ∃ h', s.dist h' a' = 1) →
    s.areaSym = s.infectedAreas →
    ∃ s', removeHostAreas occ h s L = .ok s' ∧
      s'.index = s.index ∧ s'.isExtant = s.isExtant ∧
      s'.infectedHosts = s.infectedHosts ∧
      (∀ h' a', s'.dist h' a' =
        if h' = h ∧ a' ∈ L then 0 else s.dist h' a') ∧
      (∀ h' a', s'.dist h' a' = 0 ∨ s'.dist h' a' = 1) ∧
      (∀ h' a', s'.dist h' a' = 1 → a' ∈ occ h') ∧
      (∀ a', a' ∈ s'.infectedAreas ↔ ∃ h', s'.dist h' a' = 1) ∧
      s'.areaSym = s'.infectedAreas := by
  intro L
  induction L with
  | nil =>
    intro s h01 hocc hAreas hSym
    refine ⟨s, rfl, rfl, rfl, rfl, ?_, h01, hocc, hAreas, hSym⟩
    intro h' a'
    rw [if_neg]
    rintro ⟨_, hm⟩
    exact absurd hm (List.not_mem_nil a')
  | cons a L ih =>
    intro s h01 hocc hAreas hSym
    by_cases hcell : s.dist h a > 0
    · have hcell1 : s.dist h a = 1 := by
        rcases h01 h a with h0 | h1
        · omega
        · exact h1
      have hamem : a ∈ s.infectedAreas := (hAreas a).2 ⟨h, hcell1⟩
      have hasym : a ∈ s.areaSym := by rw [hSym]; exact hamem
      have hocc1 : ∀ h' a', sdSet s.dist h a 0 h' a' = 1 → a' ∈ occ h' :=
        fun h' a' hc => hocc h' a' ((sdSet_zero_eq_one_iff h' a').1 hc).1
      have h01sd : ∀ h' a',
          sdSet s.dist h a 0 h' a' = 0 ∨ sdSet s.dist h a 0 h' a' = 1 := by
        intro h' a'
        by_cases hc : h' = h ∧ a' = a
        · left; exact if_pos hc
        · have he : sdSet s.dist h a 0 h' a' = s.dist h' a' := if_neg hc
          rw [he]; exact h01 h' a'
      have hstep : removeHostAreas occ h s (a :: L) =
          resBind (syncAreaCache occ ⟨s.index, s.isExtant, sdSet s.dist h a 0,
            s.infectedHosts, s.infectedAreas, s.areaSym⟩ a false)
            (fun s2 => removeHostAreas occ h s2 L) := by
        simp only [removeHostAreas, if_pos hcell]
      rw [hstep]
      by_cases hP : ∃ h'', sdSet s.dist h a 0 h'' a = 1
      · have hsync : syncAreaCache occ ⟨s.index, s.isExtant,
            sdSet s.dist h a 0, s.infectedHosts, s.infectedAreas, s.areaSym⟩
            a false = .ok ⟨s.index, s.isExtant, sdSet s.dist h a 0,
              s.infectedHosts, s.infectedAreas, s.areaSym⟩ := by
          simp only [syncAreaCache_eq]
          rw [if_pos ((areaScanNonempty_iff hocc1 a).mpr hP),
            Finset.insert_eq_self.mpr hamem, Finset.insert_eq_self.mpr hasym]
        simp only [hsync, resBind_ok]
        obtain ⟨s', hrun, hidx, hext, hhosts, hdist, h01', hocc', hAreas', hSym'⟩ :=
          ih ⟨s.index, s.isExtant, sdSet s.dist h a 0,
            s.infectedHosts, s.infectedAreas, s.areaSym⟩
            h01sd hocc1 (areas_keep_after_zero hAreas hP) hSym
        have hdist2 : ∀ h' a', s'.dist h' a' =
            if h' = h ∧ a' ∈ L then 0 else sdSet s.dist h a 0 h' a' := hdist
        refine ⟨s', hrun, hidx, hext, hhosts, ?_, h01', hocc', hAreas', hSym'⟩
        intro h' a'
        rw [hdist2 h' a']
        by_cases hc1 : h' = h ∧ a' ∈ L
        · rw [if_pos hc1, if_pos ⟨hc1.1, List.mem_cons_of_mem a hc1.2⟩]
        · rw [if_neg hc1]
          by_cases hc2 : h' = h ∧ a' = a
          · have hz : sdSet s.dist h a 0 h' a' = 0 := if_pos hc2
            rw [hz, if_pos ⟨hc2.1, by rw [hc2.2]; exact List.mem_cons_self a L⟩]
          · have he : sdSet s.dist h a 0 h' a' = s.dist h' a' := if_neg hc2
            rw [he, if_neg]
            rintro ⟨hh', hm⟩
            rcases List.mem_cons.1 hm with rfl | hmL
            · exact hc2 ⟨hh', rfl⟩
            · exact hc1 ⟨hh', hmL⟩
      · have hsync : syncAreaCache occ ⟨s.index, s.isExtant,
            sdSet s.dist h a 0, s.infectedHosts, s.infectedAreas, s.areaSym⟩
            a false = .ok ⟨s.index, s.isExtant, sdSet s.dist h a 0,
              s.infectedHosts, s.infectedAreas.erase a, s.areaSym.erase a⟩ := by
          simp only [syncAreaCache_eq]
          rw [if_neg (fun hn => hP ((areaScanNonempty_iff hocc1 a).mp hn)),
            if_pos hamem, if_pos hasym]
        simp only [hsync, resBind_ok]
        obtain ⟨s', hrun, hidx, hext, hhosts, hdist, h01', hocc', hAreas', hSym'⟩ :=
          ih ⟨s.index, s.isExtant, sdSet s.dist h a 0,
            s.infectedHosts, s.infectedAreas.erase a, s.areaSym.erase a⟩
            h01sd hocc1 (areas_erase_after_zero hAreas hP) (by rw [hSym])
        have hdist2 : ∀ h' a', s'.dist h' a' =
            if h' = h ∧ a' ∈ L then 0 else sdSet s.dist h a 0 h' a' := hdist
        refine ⟨s', hrun, hidx, hext, hhosts, ?_, h01', hocc', hAreas', hSym'⟩
        intro h' a'
        rw [hdist2 h' a']
        by_cases hc1 : h' = h ∧ a' ∈ L
        · rw [if_pos hc1, if_pos ⟨hc1.1, List.mem_cons_of_mem a hc1.2⟩]
        · rw [if_neg hc1]
          by_cases hc2 : h' = h ∧ a' = a
          · have hz : sdSet s.dist h a 0 h' a' = 0 := if_pos hc2
            rw [hz, if_pos ⟨hc2.1, by rw [hc2.2]; exact List.mem_cons_self a L⟩]
          · have he : sdSet s.dist h a 0 h' a' = s.dist h' a' := if_neg hc2
            rw [he, if_neg]
            rintro ⟨hh', hm⟩
            rcases List.mem_cons.1 hm with rfl | hmL
            · exact hc2 ⟨hh', rfl⟩
            · exact hc1 ⟨hh', hmL⟩
    · have hcell0 : s.dist h a = 0 := by omega
      have hstep : removeHostAreas occ h s (a :: L) =
          removeHostAreas occ h s L := by
        simp only [removeHostAreas, if_neg hcell]
      rw [hstep]
      obtain ⟨s', hrun, hidx, hext, hhosts, hdist, h01', hocc', hAreas', hSym'⟩ :=
        ih s h01 hocc hAreas hSym
      refine ⟨s', hrun, hidx, hext, hhosts, ?_, h01', hocc', hAreas', hSym'⟩
      intro h' a'
      rw [hdist h' a']
      by_cases hc1 : h' = h ∧ a' ∈ L
      · rw [if_pos hc1, if_pos ⟨hc1.1, List.mem_cons_of_mem a hc1.2⟩]
      · rw [if_neg hc1]
        by_cases hc2 : h' = h ∧ a' = a
        · rw [if_pos ⟨hc2.1, by rw [hc2.2]; exact List.mem_cons_self a L⟩,
            hc2.1, hc2.2]
          exact hcell0
        · rw [if_neg]
          rintro ⟨hh', hm⟩
          rcases List.mem_cons.1 hm with rfl | hmL
          · exact hc2 ⟨hh', rfl⟩
          · exact hc1 ⟨hh', hmL⟩

theorem removeHost_spec {s : SL nh na} {h : Fin nh} (hInv : Inv occ s) :
    (∃ s', removeHost occ s h = .ok s' ∧ Inv occ s' ∧ NonNull s' ∧
      s'.index = s.index ∧ s'.isExtant = s.isExtant) ∨
    (∃ s', removeHost occ s h = .keyErrorEx s') ∨
    (∃ s', removeHost occ s h = .nullDistributionEx s.index s') := by
  have h01 := hInv.1
  have hocc := hInv.2.1
  have hHosts := hInv.2.2.1
  have hAreas := hInv.2.2.2.1
  have hSym := hInv.2.2.2.2
  obtain ⟨s', hrun, hidx, hext, hhosts, hdist, h01', hocc', hAreas', hSym'⟩ :=
    removeHostAreas_ok h ((occ h).sort (· ≤ ·)) s h01 hocc hAreas hSym
  have hrow : ∀ a', s'.dist h a' = 0 := by
    intro a'
    rw [hdist h a']
    by_cases hm : a' ∈ (occ h).sort (· ≤ ·)
    · rw [if_pos ⟨rfl, hm⟩]
    · rw [if_neg (fun hc => hm hc.2)]
      rcases h01 h a' with h0 | h1
      · exact h0
      · exact absurd ((Finset.mem_sort _).2 (hocc h a' h1)) hm
  have hstep : removeHost occ s h =
      resBind (removeHostAreas occ h s ((occ h).sort (· ≤ ·))) (fun s1 =>
        if h ∈ s1.infectedHosts then
          checkForNullDistribution
            { s1 with infectedHosts := s1.infectedHosts.erase h }
        else .keyErrorEx s1) := rfl
  rw [hstep, hrun]
  simp only [resBind_ok]
  rw [hhosts]
  by_cases hh : h ∈ s.infectedHosts
  · rw [if_pos hh]
    have hH2 : ∀ h'', h'' ∈ s.infectedHosts.erase h ↔
        ∃ a'', s'.dist h'' a'' = 1 := by
      intro h''
      constructor
      · intro hm
        obtain ⟨hne, hmem⟩ := Finset.mem_erase.1 hm
        obtain ⟨a'', hc⟩ := (hHosts h'').1 hmem
        refine ⟨a'', ?_⟩
        rw [hdist h'' a'', if_neg (fun hcc => hne hcc.1)]
        exact hc
      · rintro ⟨a'', hc⟩
        have hne : h'' ≠ h := by
          intro hch; subst hch
          rw [hrow a''] at hc
          exact Nat.zero_ne_one hc
        have hsc : s.dist h'' a'' = 1 := by
          rw [hdist h'' a'', if_neg (fun hcc => hne hcc.1)] at hc
          exact hc
        exact Finset.mem_erase.2 ⟨hne, (hHosts h'').2 ⟨a'', hsc⟩⟩
    by_cases hnull : s.infectedHosts.erase h = ∅ ∨ s'.infectedAreas = ∅
    · right; right
      refine ⟨⟨s'.index, s'.isExtant, s'.dist, s.infectedHosts.erase h,
        s'.infectedAreas, s'.areaSym⟩, ?_⟩
      simp only [checkForNull_eq]
      rw [if_pos hnull, hidx]
    · left
      refine ⟨⟨s'.index, s'.isExtant, s'.dist, s.infectedHosts.erase h,
        s'.infectedAreas, s'.areaSym⟩, ?_,
        ⟨h01', hocc', hH2, hAreas', hSym'⟩, ?_, hidx, hext⟩
      · simp only [checkForNull_eq]
        rw [if_neg hnull]
      · push_neg at hnull
        exact ⟨Finset.nonempty_iff_ne_empty.2 hnull.1,
          Finset.nonempty_iff_ne_empty.2 hnull.2⟩
  · rw [if_neg hh]
    right; left
    exact ⟨s', rfl⟩

theorem updateDistribution_ok_of {s other : SL nh na}
    (hcond : ∀ h a, other.dist h a = 1 → s.dist h a = 0 → a ∈ occ h) :
    updateDistribution occ s other = .ok ⟨s.index, s.isExtant,
      fun h a => if other.dist h a = 1 ∧ s.dist h a = 0 then 1 else s.dist h a,
      (s.infectedHosts ∪ (Finset.univ.filter
        (fun h => ∃ a, other.dist h a = 1 ∧ s.dist h a = 0))) ∪
        other.infectedHosts,
      (s.infectedAreas ∪ (Finset.univ.filter
        (fun a => ∃ h, other.dist h a = 1 ∧ s.dist h a = 0))) ∪
        other.infectedAreas,
      s.areaSym ∪ (Finset.univ.filter
        (fun a => ∃ h, other.dist h a = 1 ∧ s.dist h a = 0))⟩ := by
  unfold updateDistribution
  rw [if_pos hcond]

theorem clear_update_ok {s other : SL nh na} (hInv : Inv occ s)
    (hInvO : Inv occ other) (hNEO : NonNull other) :
    ∃ s', applyCall occ s (.clearThenUpdate other) = .ok s' ∧ Inv occ s' ∧
      NonNull s' := by
  have hSym := hInv.2.2.2.2
  have o01 := hInvO.1
  have oocc := hInvO.2.1
  have oHosts := hInvO.2.2.1
  have oAreas := hInvO.2.2.2.1
  have hsub : s.infectedAreas ⊆ s.areaSym := by
    rw [hSym]
  have hclear : clearDistribution s = .ok ⟨s.index, s.isExtant,
      fun _ _ => 0, ∅, ∅, s.areaSym \ s.infectedAreas⟩ := by
    unfold clearDistribution
    rw [if_pos hsub]
  have hsdiff : s.areaSym \ s.infectedAreas = ∅ := by
    rw [hSym]; exact Finset.sdiff_self _
  have happ : applyCall occ s (.clearThenUpdate other) =
      updateDistribution occ
        ⟨s.index, s.isExtant, fun _ _ => 0, ∅, ∅, ∅⟩ other := by
    simp only [applyCall, hclear, hsdiff, resBind_ok]
  have hcond : ∀ h a, other.dist h a = 1 →
      (⟨s.index, s.isExtant, fun _ _ => 0, ∅, ∅,
        ∅⟩ : SL nh na).dist h a = 0 → a ∈ occ h :=
    fun h a hc _ => oocc h a hc
  have hupd := updateDistribution_ok_of hcond
  rw [happ, hupd]
  have hd1 : ∀ (h : Fin nh) (a : Fin na),
      (if other.dist h a = 1 ∧ (0 : Nat) = 0 then 1 else (0 : Nat)) = 1 ↔
        other.dist h a = 1 := by
    intro h a
    by_cases hc : other.dist h a = 1
    · rw [if_pos ⟨hc, rfl⟩]; exact ⟨fun _ => hc, fun _ => rfl⟩
    · rw [if_neg (fun hcc => hc hcc.1)]
      exact ⟨fun hz => absurd hz Nat.zero_ne_one, fun hcc => absurd hcc hc⟩
  refine ⟨_, rfl, ⟨?_, ?_, ?_, ?_, ?_⟩, ?_, ?_⟩
  · intro h' a'
    show (if other.dist h' a' = 1 ∧ (0 : Nat) = 0 then 1 else (0 : Nat)) = 0 ∨
      (if other.dist h' a' = 1 ∧ (0 : Nat) = 0 then 1 else (0 : Nat)) = 1
    by_cases hc : other.dist h' a' = 1
    · right; rw [if_pos ⟨hc, rfl⟩]
    · left; rw [if_neg (fun hcc => hc hcc.1)]
  · intro h' a' hc
    exact oocc h' a' ((hd1 h' a').1 hc)
  · intro h'
    show h' ∈ (∅ ∪ (Finset.univ.filter
        (fun h => ∃ a, other.dist h a = 1 ∧ (0 : Nat) = 0))) ∪
        other.infectedHosts ↔ _
    constructor
    · intro hm
      rcases Finset.mem_union.1 hm with hm1 | hmem
      · rcases Finset.mem_union.1 hm1 with hm0 | hmF
        · exact absurd hm0 (Finset.not_mem_empty h')
        · obtain ⟨a', hc, _⟩ := (Finset.mem_filter.1 hmF).2
          exact ⟨a', (hd1 h' a').2 hc⟩
      · obtain ⟨a', hc⟩ := (oHosts h').1 hmem
        exact ⟨a', (hd1 h' a').2 hc⟩
    · rintro ⟨a', hc⟩
      exact Finset.mem_union_left _ (Finset.mem_union_right _
        (Finset.mem_filter.2 ⟨Finset.mem_univ _, a', (hd1 h' a').1 hc, rfl⟩))
  · intro a'
    show a' ∈ (∅ ∪ (Finset.univ.filter
        (fun a => ∃ h, other.dist h a = 1 ∧ (0 : Nat) = 0))) ∪
        other.infectedAreas ↔ _
    constructor
    · intro hm
      rcases Finset.mem_union.1 hm with hm1 | hmem
      · rcases Finset.mem_union.1 hm1 with hm0 | hmF
        · exact absurd hm0 (Finset.not_mem_empty a')
        · obtain ⟨h', hc, _⟩ := (Finset.mem_filter.1 hmF).2
          exact ⟨h', (hd1 h' a').2 hc⟩
      · obtain ⟨h', hc⟩ := (oAreas a').1 hmem
        exact ⟨h', (hd1 h' a').2 hc⟩
    · rintro ⟨h', hc⟩
      exact Finset.mem_union_left _ (Finset.mem_union_right _
        (Finset.mem_filter.2 ⟨Finset.mem_univ _, h', (hd1 h' a').1 hc, rfl⟩))
  · show (∅ : Finset (Fin na)) ∪ (Finset.univ.filter
        (fun a => ∃ h, other.dist h a = 1 ∧ (0 : Nat) = 0)) =
      ((∅ : Finset (Fin na)) ∪ (Finset.univ.filter
        (fun a => ∃ h, other.dist h a = 1 ∧ (0 : Nat) = 0))) ∪
        other.infectedAreas
    ext a'
    constructor
    · intro hx
      exact Finset.mem_union_left _ hx
    · intro hx
      rcases Finset.mem_union.1 hx with hx1 | hmem
      · exact hx1
      · obtain ⟨h', hc⟩ := (oAreas a').1 hmem
        exact Finset.mem_union_right _
          (Finset.mem_filter.2 ⟨Finset.mem_univ _, h', hc, rfl⟩)
  · obtain ⟨h0, hh0⟩ := hNEO.1
    exact ⟨h0, Finset.mem_union_right _ hh0⟩
  · obtain ⟨a0, ha0⟩ := hNEO.2
    exact ⟨a0, Finset.mem_union_right _ ha0⟩

end InvLemmas

/-- Whether a run stopped because `NullDistributionException` escaped. -/
def stoppedNull : RunStop → Bool
  | .nullDistribution _ => true
  | _ => false

instance {nh na : Nat} (occ : Occ nh na) :
    ∀ c : Call nh na, Decidable (namedAreaCall occ c)
  | .addHostInArea _ none => isFalse (fun hf => hf)
  | .addHostInArea h (some a) => inferInstanceAs (Decidable (a ∈ occ h))
  | .removeHostInArea _ none => isFalse (fun hf => hf)
  | .removeHostInArea h (some a) => inferInstanceAs (Decidable (a ∈ occ h))
  | .clearThenUpdate _ => isFalse (fun hf => hf)

instance {nh na : Nat} (occ : Occ nh na) :
    ∀ c : Call nh na, Decidable (callPre occ c)
  | .addHostInArea h none => inferInstanceAs (Decidable (occ h).Nonempty)
  | .addHostInArea h (some a) => inferInstanceAs (Decidable (a ∈ occ h))
  | .removeHostInArea _ none => inferInstanceAs (Decidable True)
  | .removeHostInArea h (some a) => inferInstanceAs (Decidable (a ∈ occ h))
  | .clearThenUpdate other => inferInstanceAs (Decidable (_ ∧ _ ∧ _))

section RunLemmas

variable {nh na : Nat} {occ : Occ nh na}

theorem namedCall_classify {s : SL nh na} {c : Call nh na}
    (hInv : Inv occ s) (hNN : NonNull s) (hpre : namedAreaCall occ c) :
    (∃ s', applyCall occ s c = .ok s' ∧ Inv occ s' ∧ NonNull s') ∨
    (applyCall occ s c = .keyErrorEx s) ∨
    (∃ s', applyCall occ s c = .nullDistributionEx s.index s') := by
  cases c with
  | addHostInArea h a? =>
    cases a? with
    | none => exact hpre.elim
    | some a =>
      obtain ⟨s', heq, hI, hN, _, _⟩ := add_some_ok hInv hpre
      exact Or.inl ⟨s', heq, hI, hN⟩
  | removeHostInArea h a? =>
    cases a? with
    | none => exact hpre.elim
    | some a =>
      rcases hInv.1 h a with h0 | h1
      · rcases remove_some_cell0 hInv hpre h0 with hok | hkey
        · exact Or.inl ⟨s, hok, hInv, hNN⟩
        · exact Or.inr (Or.inl hkey)
      · rcases remove_some_cell1 hInv hpre h1 with
          ⟨s', heq, hI, hN, _, _, _⟩ | ⟨_, s', heq⟩
        · exact Or.inl ⟨s', heq, hI, hN⟩
        · exact Or.inr (Or.inr ⟨s', heq⟩)
  | clearThenUpdate other => exact hpre.elim

theorem call_ok_inv {s t : SL nh na} {c : Call nh na}
    (hInv : Inv occ s) (hNN : NonNull s) (hpre : callPre occ c)
    (hok : applyCall occ s c = .ok t) : Inv occ t ∧ NonNull t := by
  cases c with
  | addHostInArea h a? =>
    cases a? with
    | none =>
      obtain ⟨s', heq, hI, hN⟩ := add_none_ok hInv hpre
      have hok2 : addHostInArea occ s h none = .ok t := hok
      rw [heq] at hok2
      injection hok2 with hh
      subst hh
      exact ⟨hI, hN⟩
    | some a =>
      obtain ⟨s', heq, hI, hN, _, _⟩ := add_some_ok hInv hpre
      have hok2 : addHostInArea occ s h (some a) = .ok t := hok
      rw [heq] at hok2
      injection hok2 with hh
      subst hh
      exact ⟨hI, hN⟩
  | removeHostInArea h a? =>
    cases a? with
    | none =>
      have hok2 : removeHost occ s h = .ok t := hok
      rcases removeHost_spec hInv with
        ⟨s', heq, hI, hN, _, _⟩ | ⟨s', heq⟩ | ⟨s', heq⟩
      · rw [heq] at hok2
        injection hok2 with hh
        subst hh
        exact ⟨hI, hN⟩
      · rw [heq] at hok2; exact Res.noConfusion hok2
      · rw [heq] at hok2; exact Res.noConfusion hok2
    | some a =>
      have hok2 : removeHostInArea occ s h (some a) = .ok t := hok
      rcases hInv.1 h a with h0 | h1
      · rcases remove_some_cell0 hInv hpre h0 with hokk | hkey
        · rw [hokk] at hok2
          injection hok2 with hh
          subst hh
          exact ⟨hInv, hNN⟩
        · rw [hkey] at hok2; exact Res.noConfusion hok2
      · rcases remove_some_cell1 hInv hpre h1 with
          ⟨s', heq, hI, hN, _, _, _⟩ | ⟨_, s', heq⟩
        · rw [heq] at hok2
          injection hok2 with hh
          subst hh
          exact ⟨hI, hN⟩
        · rw [heq] at hok2; exact Res.noConfusion hok2
  | clearThenUpdate other =>
    obtain ⟨hInvO, hNO1, hNO2⟩ := hpre
    obtain ⟨s', heq, hI, hN⟩ := clear_update_ok hInv hInvO ⟨hNO1, hNO2⟩
    rw [heq] at hok
    injection hok with hh
    subst hh
    exact ⟨hI, hN⟩

theorem runCalls_ok_inv :
    ∀ (cs : List (Call nh na)) (s s' : SL nh na),
    Inv occ s → NonNull s → (∀ c ∈ cs, callPre occ c) →
    runCalls occ s cs = (s', .completed) → Inv occ s' ∧ NonNull s' := by
  intro cs
  induction cs with
  | nil =>
    intro s s' hI hN _ hrun
    have hrun2 : (s, RunStop.completed) = (s', RunStop.completed) := hrun
    injection hrun2 with h1 _
    subst h1
    exact ⟨hI, hN⟩
  | cons c cs ih =>
    intro s s' hI hN hpre hrun
    cases he : applyCall occ s c with
    | ok t =>
      simp only [runCalls, he] at hrun
      obtain ⟨hI', hN'⟩ :=
        call_ok_inv hI hN (hpre c (List.mem_cons_self c cs)) he
      exact ih t s' hI' hN'
        (fun c' hc' => hpre c' (List.mem_cons_of_mem c hc')) hrun
    | nullDistributionEx i t =>
      simp only [runCalls, he] at hrun
      have h2 : RunStop.nullDistribution i = RunStop.completed :=
        congrArg Prod.snd hrun
      exact RunStop.noConfusion h2
    | keyErrorEx t =>
      simp only [runCalls, he] at hrun
      have h2 : RunStop.keyError = RunStop.completed := congrArg Prod.snd hrun
      exact RunStop.noConfusion h2
    | assertErrorEx t =>
      simp only [runCalls, he] at hrun
      have h2 : RunStop.assertError = RunStop.completed :=
        congrArg Prod.snd hrun
      exact RunStop.noConfusion h2
    | valueErrorEx t =>
      simp only [runCalls, he] at hrun
      have h2 : RunStop.valueError = RunStop.completed := congrArg Prod.snd hrun
      exact RunStop.noConfusion h2
    | totalExtinctionEx t =>
      simp only [runCalls, he] at hrun
      have h2 : RunStop.totalExtinction = RunStop.completed :=
        congrArg Prod.snd hrun
      exact RunStop.noConfusion h2

theorem runCalls_named_front :
    ∀ (cs : List (Call nh na)) (s : SL nh na),
    Inv occ s → NonNull s → (∀ c ∈ cs, namedAreaCall occ c) →
    stoppedNull (runCalls occ s cs).2 = false →
    ∀ n, Inv occ (runCalls occ s (cs.take n)).1 ∧
      NonNull (runCalls occ s (cs.take n)).1 := by
  intro cs
  induction cs with
  | nil =>
    intro s hI hN _ _ n
    simp only [List.take_nil, runCalls]
    exact ⟨hI, hN⟩
  | cons c cs ih =>
    intro s hI hN hpre hnonull n
    cases n with
    | zero =>
      simp only [List.take_zero, runCalls]
      exact ⟨hI, hN⟩
    | succ n =>
      rcases namedCall_classify hI hN (hpre c (List.mem_cons_self c cs)) with
        ⟨s', heq, hI', hN'⟩ | hkey | ⟨s', heq⟩
      · simp only [runCalls, heq] at hnonull
        simp only [List.take_succ_cons, runCalls, heq]
        exact ih s' hI' hN'
          (fun c' hc' => hpre c' (List.mem_cons_of_mem c hc')) hnonull n
      · simp only [List.take_succ_cons, runCalls, hkey]
        exact ⟨hI, hN⟩
      · simp only [runCalls, heq] at hnonull
        exact Bool.noConfusion hnonull

end RunLemmas

/-- `SymbiontLineage.debug_check` (model.py lines 977-1008), invoked with
`simulation_elapsed_time=None` (so the host-extancy audit at the end is
skipped): re-derive the infected sets from the full matrix, raising on a cell
outside {0,1}; assert every set cell's host occupies the area and the lineage
is registered on the area; assert at least one occurrence; assert both caches
match the re-derivation; and assert the lineage is not registered on any
non-infected area. -/
def debugCheckOk {nh na : Nat} (occ : Occ nh na) (s : SL nh na) : Prop :=
  (∀ h a, s.dist h a = 0 ∨ s.dist h a = 1) ∧
  (∀ h a, s.dist h a = 1 →
    (h ∈ areaHostLineages occ a ∧ a ∈ s.areaSym)) ∧
  (∃ h a, s.dist h a = 1) ∧
  (∀ h, h ∈ s.infectedHosts ↔ ∃ a, s.dist h a = 1) ∧
  (∀ a, a ∈ s.infectedAreas ↔ ∃ h, s.dist h a = 1) ∧
  (∀ a, (¬ ∃ h, s.dist h a = 1) → a ∉ s.areaSym)

instance {nh na : Nat} (occ : Occ nh na) (s : SL nh na) :
    Decidable (debugCheckOk occ s) :=
  inferInstanceAs (Decidable
    ((∀ h a, s.dist h a = 0 ∨ s.dist h a = 1) ∧
     (∀ h a, s.dist h a = 1 →
       (h ∈ areaHostLineages occ a ∧ a ∈ s.areaSym)) ∧
     (∃ h a, s.dist h a = 1) ∧
     (∀ h, h ∈ s.infectedHosts ↔ ∃ a, s.dist h a = 1) ∧
     (∀ a, a ∈ s.infectedAreas ↔ ∃ h, s.dist h a = 1) ∧
     (∀ a, (¬ ∃ h, s.dist h a = 1) → a ∉ s.areaSym)))

/-- C1: for every `SymbiontLineage` (any consistent non-null lineage state)
and every finite sequence of `add_host_in_area`/`remove_host_in_area` calls
with explicitly named areas, each satisfying its precondition that the named
host currently occupies the named area, if the run never lets
`NullDistributionException` escape (the sequence does not reduce the lineage
to zero hosts or zero areas), then the infected-host and infected-area caches
are non-empty after every call (every prefix of the run); and a single
`remove_host_in_area` call that clears the last set cell — whose effect would
leave both caches empty — raises `NullDistributionException` carrying that
lineage (the exception's payload is the lineage's index). -/
theorem nonnull_distribution_invariant :
    (∀ (nh na : Nat) (occ : Occ nh na) (s : SL nh na) (cs : List (Call nh na)),
      Inv occ s → NonNull s → (∀ c ∈ cs, namedAreaCall occ c) →
      stoppedNull (runCalls occ s cs).2 = false →
      ∀ n, NonNull (runCalls occ s (cs.take n)).1) ∧
    (∀ (nh na : Nat) (occ : Occ nh na) (s : SL nh na) (h : Fin nh) (a : Fin na),
      Inv occ s → a ∈ occ h → s.dist h a = 1 →
      (∀ h' a', s.dist h' a' = 1 → h' = h ∧ a' = a) →
      ∃ s', applyCall occ s (.removeHostInArea h (some a)) =
        .nullDistributionEx s.index s') := by
  constructor
  · intro nh na occ s cs hI hN hpre hnonull n
    exact (runCalls_named_front cs s hI hN hpre hnonull n).2
  · intro nh na occ s h a hI hpre hcell honly
    exact remove_some_null hI hpre hcell honly

/-- Concrete one-host one-area scenario for the C1 witness. -/
def occ1 : Occ 1 1 := fun _ => {0}

/-- Concrete non-null consistent lineage state over one host and one area. -/
def s1 : SL 1 1 := ⟨0, true, fun _ _ => 1, {0}, {0}, {0}⟩

/-- Concrete call sequence for the C1 witness. -/
def cs1 : List (Call 1 1) := [.addHostInArea 0 (some 0)]

/-- Witness for C1 at a concrete input: after running the one-call sequence
the caches are non-empty, and removing the only set cell raises
`NullDistributionException` carrying the lineage. -/
theorem nonnull_distribution_invariant_witness :
    NonNull (runCalls occ1 s1 (cs1.take 1)).1 ∧
    ∃ s', applyCall occ1 s1 (.removeHostInArea 0 (some 0)) =
      .nullDistributionEx s1.index s' :=
  ⟨nonnull_distribution_invariant.1 1 1 occ1 s1 cs1 (by decide) (by decide)
      (by decide) (by decide) 1,
    nonnull_distribution_invariant.2 1 1 occ1 s1 0 0 (by decide) (by decide)
      (by decide) (by decide)⟩

/-- Concrete two-host two-area scenario for the C2 counterexample: host 0
occupies area 0, host 1 occupies area 1. -/
def occ2 : Occ 2 2 := fun h => {h}

/-- Mutator sequence reaching the C2 counterexample state from a fresh
lineage: infect host 0 in area 0, then host 1 in area 1. -/
def c2calls : List (Call 2 2) :=
  [.addHostInArea 0 (some 0), .addHostInArea 1 (some 1)]

/-- C2 counterexample: in a state reached from the freshly constructed
lineage by two successful `add_host_in_area` mutations, the cell
`matrix[host 0][area 1]` is 0 although host 0 is in the infected-host set,
area 1 is in the infected-area set, and the lineage is registered on area 1 —
so the claimed equivalence `matrix[host][area] == 1 ↔ (host infected ∧ area
infected ∧ lineage ∈ area.symbiont_lineages)` is false on the code. -/
theorem bidirectional_consistency_counterexample :
    (runCalls occ2 (freshSL 2 2 0) c2calls).2 = RunStop.completed ∧
    ¬ ((runCalls occ2 (freshSL 2 2 0) c2calls).1.dist 0 1 = 1 ↔
      (0 ∈ (runCalls occ2 (freshSL 2 2 0) c2calls).1.infectedHosts ∧
       1 ∈ (runCalls occ2 (freshSL 2 2 0) c2calls).1.infectedAreas ∧
       1 ∈ (runCalls occ2 (freshSL 2 2 0) c2calls).1.areaSym)) := by
  decide

/-- C2 (amended): for every state reachable from a consistent non-null
`SymbiontLineage` state by a successfully completing sequence of the public
mutators (`add_host_in_area`, `remove_host_in_area`/`remove_host`,
`clear_distribution` immediately followed by `update_distribution`), each
satisfying its documented precondition, `debug_check()` succeeds (with the
host-extancy audit skipped, as when no simulation time is supplied), and for
every `(host, area)` pair the cell `matrix[host][area] == 1` holds iff the
host is infected, the area is infected, the lineage is registered on the
area, and the cell itself is set — i.e. a set cell implies all three
memberships, while the converse requires the cell to be confirmed. -/
theorem bidirectional_consistency_amended :
    ∀ (nh na : Nat) (occ : Occ nh na) (s s' : SL nh na)
      (cs : List (Call nh na)),
    Inv occ s → NonNull s → (∀ c ∈ cs, callPre occ c) →
    runCalls occ s cs = (s', RunStop.completed) →
    debugCheckOk occ s' ∧
    ∀ h a, s'.dist h a = 1 ↔
      (h ∈ s'.infectedHosts ∧ a ∈ s'.infectedAreas ∧ a ∈ s'.areaSym ∧
        s'.dist h a = 1) := by
  intro nh na occ s s' cs hI hN hpre hrun
  obtain ⟨⟨h01, hocc, hHosts, hAreas, hSym⟩, hNN'⟩ :=
    runCalls_ok_inv cs s s' hI hN hpre hrun
  constructor
  · refine ⟨h01, ?_, ?_, hHosts, hAreas, ?_⟩
    · intro h a hc
      constructor
      · exact Finset.mem_filter.2 ⟨Finset.mem_univ _, hocc h a hc⟩
      · rw [hSym]; exact (hAreas a).2 ⟨h, hc⟩
    · obtain ⟨h0, hh0⟩ := hNN'.1
      obtain ⟨a0, hc0⟩ := (hHosts h0).1 hh0
      exact ⟨h0, a0, hc0⟩
    · intro a hnone hmem
      rw [hSym] at hmem
      exact hnone ((hAreas a).1 hmem)
  · intro h a
    constructor
    · intro hc
      refine ⟨(hHosts h).2 ⟨a, hc⟩, (hAreas a).2 ⟨h, hc⟩, ?_, hc⟩
      rw [hSym]; exact (hAreas a).2 ⟨h, hc⟩
    · rintro ⟨_, _, _, hc⟩
      exact hc

/-- Call sequence for the C2 witness. -/
def c2wcalls : List (Call 1 1) := [.addHostInArea 0 (some 0)]

/-- Witness for the amended C2 at a concrete input: the one-host one-area
lineage passes `debug_check` after a successful mutation, and the cell
equivalence holds at `(host 0, area 0)`. -/
theorem bidirectional_consistency_amended_witness :
    debugCheckOk occ1 (runCalls occ1 s1 c2wcalls).1 ∧
    ((runCalls occ1 s1 c2wcalls).1.dist 0 0 = 1 ↔
      (0 ∈ (runCalls occ1 s1 c2wcalls).1.infectedHosts ∧
       0 ∈ (runCalls occ1 s1 c2wcalls).1.infectedAreas ∧
       0 ∈ (runCalls occ1 s1 c2wcalls).1.areaSym ∧
       (runCalls occ1 s1 c2wcalls).1.dist 0 0 = 1)) := by
  have h := bidirectional_consistency_amended 1 1 occ1 s1
    (runCalls occ1 s1 c2wcalls).1 c2wcalls
    (by decide) (by decide) (by decide) (Prod.ext rfl (by decide))
  exact ⟨h.1, h.2 0 0⟩

/-- State carried by a `Res` result (the object state at return or at the
moment the exception propagates). -/
def resState {α : Type} : Res α → α
  | .ok s => s
  | .nullDistributionEx _ s => s
  | .keyErrorEx s => s
  | .assertErrorEx s => s
  | .valueErrorEx s => s
  | .totalExtinctionEx s => s

/-- Whether a `Res` result is a normal return. -/
def resIsOk {α : Type} : Res α → Bool
  | .ok _ => true
  | _ => false

/-- Scenario for C8: two hosts, one area, neither host currently occupies the
area (as after host-side events move hosts out of an area they were infected
in), while the lineage's matrix still has cell (host 0, area 0) set and the
area is cached as infected and holds the back-reference. -/
def occC8 : Occ 2 1 := fun _ => ∅

/-- Lineage state for the C8 scenario. -/
def sC8 : SL 2 1 :=
  ⟨0, true, fun h _ => if h = 0 then 1 else 0, {0}, {0}, {0}⟩

/-- C8: `sync_area_cache(area, search_all_hosts=True)` does not scan every
host lineage in the system as claimed.  First conjunct: in the embedding of
the source, the `search_all_hosts` argument has no effect at all (the computed
`host_lineage_iter` is dead; the loop iterates `area.host_lineages`
regardless).  Remaining conjuncts evaluate the code at the failing input: host
0 has matrix cell (host 0, area 0) = 1, so a full-system scan would keep the
area infected, yet the call removes the area from the infected-area cache and
from the area's back-reference set. -/
theorem sync_area_cache_ignores_search_all_hosts :
    (∀ (nh na : Nat) (occ : Occ nh na) (s : SL nh na) (a : Fin na),
      syncAreaCache occ s a true = syncAreaCache occ s a false) ∧
    sC8.dist 0 0 = 1 ∧
    resIsOk (syncAreaCache occC8 sC8 0 true) = true ∧
    0 ∉ (resState (syncAreaCache occC8 sC8 0 true)).infectedAreas ∧
    0 ∉ (resState (syncAreaCache occC8 sC8 0 true)).areaSym := by
  refine ⟨fun nh na occ s a => rfl, ?_, ?_, ?_, ?_⟩ <;> decide

/-- State of a `SymbiontPhylogeny` (model.py lines 1010-1104).  Lineages are
addressed by their `index`: `sl i` is the state of lineage `i` (meaningful
for `i < nLine`, the next value of `lineage_indexer`); `childNodes i` is the
dendropy child list of node `i`; `current` is `current_lineages`. -/
structure Phylo (nh na : Nat) where
  nLine : Nat
  sl : Nat → SL nh na
  childNodes : Nat → List Nat
  current : Finset Nat

/-- Freshly constructed `SymbiontPhylogeny`: one fresh seed lineage with
index 0; `current_lineages = {seed_node}`. -/
def seedPhylo (nh na : Nat) : Phylo nh na :=
  ⟨1, fun i => freshSL nh na i, fun _ => [], {0}⟩

/-- `SymbiontPhylogeny.split_lineage` (model.py lines 1048-1081): allocate
two fresh children with the next two indices; each inherits the parent's
distribution via `update_distribution`; then the parent is marked non-extant,
removed from `current_lineages` (KeyError if absent), its distribution
cleared, both children attached as its tree children and added to
`current_lineages`.  On an exception escaping from the inheritance or
clearing steps, the phylogeny is left with the indexer already advanced and
any parent mutations already applied, as in the source. -/
def splitLineage {nh na : Nat} (occ : Occ nh na) (P : Phylo nh na) (l : Nat) :
    Res (Phylo nh na) :=
  match updateDistribution occ (freshSL nh na P.nLine) (P.sl l) with
  | .ok s1 =>
    match updateDistribution occ (freshSL nh na (P.nLine + 1)) (P.sl l) with
    | .ok s2 =>
      if l ∈ P.current then
        match clearDistribution { P.sl l with isExtant := false } with
        | .ok pCleared =>
          .ok ⟨P.nLine + 2,
            fun i => if i = P.nLine then s1 else if i = P.nLine + 1 then s2
              else if i = l then pCleared else P.sl i,
            fun i => if i = l then P.childNodes l ++ [P.nLine, P.nLine + 1]
              else P.childNodes i,
            insert (P.nLine + 1) (insert P.nLine (P.current.erase l))⟩
        | _ =>
          .keyErrorEx ⟨P.nLine + 2,
            fun i => if i = l then { P.sl l with isExtant := false }
              else P.sl i,
            P.childNodes, P.current.erase l⟩
      else
        .keyErrorEx ⟨P.nLine + 2,
          fun i => if i = l then { P.sl l with isExtant := false }
            else P.sl i,
          P.childNodes, P.current⟩
    | _ => .assertErrorEx { P with nLine := P.nLine + 2 }
  | _ => .assertErrorEx { P with nLine := P.nLine + 2 }

/-- `SymbiontPhylogeny.extinguish_lineage` /
`_make_lineage_extinct_on_phylogeny` (model.py lines 1083-1104): if exactly
one live lineage remains, raise `TotalExtinctionException` before any
mutation; otherwise mark the lineage non-extant, remove it from
`current_lineages` (KeyError if absent, with `is_extant` already cleared),
and prune it from the tree (modeled as detaching the node from every child
list; dendropy's `prune_subtree` removes it from its parent). -/
def extinguishLineage {nh na : Nat} (P : Phylo nh na) (l : Nat) :
    Res (Phylo nh na) :=
  if P.current.card = 1 then
    .totalExtinctionEx P
  else if l ∈ P.current then
    .ok ⟨P.nLine,
      fun i => if i = l then { P.sl l with isExtant := false } else P.sl i,
      fun i => (P.childNodes i).filter (fun j => j ≠ l),
      P.current.erase l⟩
  else
    .keyErrorEx { P with
      sl := fun i => if i = l then { P.sl l with isExtant := false }
        else P.sl i }

section PhyloLemmas

variable {nh na : Nat} {occ : Occ nh na}

theorem update_into_empty {s0 other : SL nh na}
    (hd : ∀ h a, s0.dist h a = 0)
    (hH : s0.infectedHosts = ∅) (hA : s0.infectedAreas = ∅)
    (hY : s0.areaSym = ∅)
    (hInvO : Inv occ other) (hNEO : NonNull other) :
    ∃ u, updateDistribution occ s0 other = .ok u ∧ Inv occ u ∧ NonNull u ∧
      (∀ h a, u.dist h a = 1 ↔ other.dist h a = 1) ∧
      u.index = s0.index ∧ u.isExtant = s0.isExtant := by
  have oocc := hInvO.2.1
  have oHosts := hInvO.2.2.1
  have oAreas := hInvO.2.2.2.1
  have hcond : ∀ h a, other.dist h a = 1 → s0.dist h a = 0 → a ∈ occ h :=
    fun h a hc _ => oocc h a hc
  have hupd := updateDistribution_ok_of hcond
  have hd1 : ∀ (h : Fin nh) (a : Fin na),
      (if other.dist h a = 1 ∧ s0.dist h a = 0 then 1 else s0.dist h a) = 1 ↔
        other.dist h a = 1 := by
    intro h a
    by_cases hc : other.dist h a = 1
    · rw [if_pos ⟨hc, hd h a⟩]
      exact iff_of_true rfl hc
    · rw [if_neg (fun hcc => hc hcc.1), hd h a]
      exact iff_of_false Nat.zero_ne_one hc
  refine ⟨_, hupd, ⟨?_, ?_, ?_, ?_, ?_⟩, ⟨?_, ?_⟩, ?_, rfl, rfl⟩
  · intro h' a'
    show (if other.dist h' a' = 1 ∧ s0.dist h' a' = 0 then 1
        else s0.dist h' a') = 0 ∨
      (if other.dist h' a' = 1 ∧ s0.dist h' a' = 0 then 1
        else s0.dist h' a') = 1
    by_cases hc : other.dist h' a' = 1
    · right; rw [if_pos ⟨hc, hd h' a'⟩]
    · left; rw [if_neg (fun hcc => hc hcc.1), hd h' a']
  · intro h' a' hc
    exact oocc h' a' ((hd1 h' a').1 hc)
  · intro h'
    show h' ∈ (s0.infectedHosts ∪ (Finset.univ.filter
        (fun h => ∃ a, other.dist h a = 1 ∧ s0.dist h a = 0))) ∪
        other.infectedHosts ↔ _
    constructor
    · intro hm
      rcases Finset.mem_union.1 hm with hm1 | hmem
      · rcases Finset.mem_union.1 hm1 with hm0 | hmF
        · rw [hH] at hm0
          exact absurd hm0 (Finset.not_mem_empty h')
        · obtain ⟨a', hc, _⟩ := (Finset.mem_filter.1 hmF).2
          exact ⟨a', (hd1 h' a').2 hc⟩
      · obtain ⟨a', hc⟩ := (oHosts h').1 hmem
        exact ⟨a', (hd1 h' a').2 hc⟩
    · rintro ⟨a', hc⟩
      exact Finset.mem_union_left _ (Finset.mem_union_right _
        (Finset.mem_filter.2 ⟨Finset.mem_univ _, a', (hd1 h' a').1 hc,
          hd h' a'⟩))
  · intro a'
    show a' ∈ (s0.infectedAreas ∪ (Finset.univ.filter
        (fun a => ∃ h, other.dist h a = 1 ∧ s0.dist h a = 0))) ∪
        other.infectedAreas ↔ _
    constructor
    · intro hm
      rcases Finset.mem_union.1 hm with hm1 | hmem
      · rcases Finset.mem_union.1 hm1 with hm0 | hmF
        · rw [hA] at hm0
          exact absurd hm0 (Finset.not_mem_empty a')
        · obtain ⟨h', hc, _⟩ := (Finset.mem_filter.1 hmF).2
          exact ⟨h', (hd1 h' a').2 hc⟩
      · obtain ⟨h', hc⟩ := (oAreas a').1 hmem
        exact ⟨h', (hd1 h' a').2 hc⟩
    · rintro ⟨h', hc⟩
      exact Finset.mem_union_left _ (Finset.mem_union_right _
        (Finset.mem_filter.2 ⟨Finset.mem_univ _, h', (hd1 h' a').1 hc,
          hd h' a'⟩))
  · show s0.areaSym ∪ (Finset.univ.filter
        (fun a => ∃ h, other.dist h a = 1 ∧ s0.dist h a = 0)) =
      (s0.infectedAreas ∪ (Finset.univ.filter
        (fun a => ∃ h, other.dist h a = 1 ∧ s0.dist h a = 0))) ∪
        other.infectedAreas
    rw [hY, hA]
    ext a'
    constructor
    · intro hx
      exact Finset.mem_union_left _ hx
    · intro hx
      rcases Finset.mem_union.1 hx with hx1 | hmem
      · exact hx1
      · obtain ⟨h', hc⟩ := (oAreas a').1 hmem
        exact Finset.mem_union_right _
          (Finset.mem_filter.2 ⟨Finset.mem_univ _, h', hc, hd h' a'⟩)
  · obtain ⟨h0, hh0⟩ := hNEO.1
    exact ⟨h0, Finset.mem_union_right _ hh0⟩
  · obtain ⟨a0, ha0⟩ := hNEO.2
    exact ⟨a0, Finset.mem_union_right _ ha0⟩
  · intro h' a'
    exact hd1 h' a'

end PhyloLemmas

/-- C6: calling `extinguish_lineage` when the live-lineage set has exactly
one member raises `TotalExtinctionException`, and on that error path the
phylogeny is unchanged: the raise happens before any mutation, so the live
set still contains the lineage, its `is_extant` flag is still True, and the
tree topology and every lineage state are untouched. -/
theorem total_extinction_terminal :
    ∀ (nh na : Nat) (P : Phylo nh na) (l : Nat),
    P.current.card = 1 → l ∈ P.current → (P.sl l).isExtant = true →
    extinguishLineage P l = .totalExtinctionEx P ∧
    l ∈ (resState (extinguishLineage P l)).current ∧
    ((resState (extinguishLineage P l)).sl l).isExtant = true ∧
    (∀ i, (resState (extinguishLineage P l)).childNodes i = P.childNodes i) ∧
    (∀ i, (resState (extinguishLineage P l)).sl i = P.sl i) := by
  intro nh na P l hcard hmem hext
  have heq : extinguishLineage P l = .totalExtinctionEx P := by
    unfold extinguishLineage
    rw [if_pos hcard]
  rw [heq]
  exact ⟨rfl, hmem, hext, fun i => rfl, fun i => rfl⟩

/-- Witness for C6 at a concrete input: a freshly seeded phylogeny has one
live lineage; extinguishing it raises `TotalExtinctionException` with the
phylogeny unchanged. -/
theorem total_extinction_terminal_witness :
    extinguishLineage (seedPhylo 1 1) 0 = .totalExtinctionEx (seedPhylo 1 1) ∧
    0 ∈ (resState (extinguishLineage (seedPhylo 1 1) 0)).current ∧
    ((resState (extinguishLineage (seedPhylo 1 1) 0)).sl 0).isExtant = true := by
  have h := total_extinction_terminal 1 1 (seedPhylo 1 1) 0
    (by decide) (by decide) (by decide)
  exact ⟨h.1, h.2.1, h.2.2.1⟩

/-- C10: when more than one live lineage remains, a successful
`extinguish_lineage(L)` leaves L's association state exactly as it was:
every matrix cell, the infected-host and infected-area caches, and L's
membership in every area's `symbiont_lineages` back-reference set are
unchanged; the operation only clears `is_extant`, removes L from the live
set, and prunes it from the tree; every other lineage is untouched. -/
theorem extinguish_frame_effect :
    ∀ (nh na : Nat) (P : Phylo nh na) (l : Nat),
    1 < P.current.card → l ∈ P.current →
    ∃ P', extinguishLineage P l = .ok P' ∧
      (∀ h a, (P'.sl l).dist h a = (P.sl l).dist h a) ∧
      (P'.sl l).infectedHosts = (P.sl l).infectedHosts ∧
      (P'.sl l).infectedAreas = (P.sl l).infectedAreas ∧
      (P'.sl l).areaSym = (P.sl l).areaSym ∧
      (P'.sl l).isExtant = false ∧
      l ∉ P'.current ∧
      (∀ i, l ∉ P'.childNodes i) ∧
      (∀ i, i ≠ l → P'.sl i = P.sl i) := by
  intro nh na P l hcard hmem
  have hne : ¬ P.current.card = 1 := by omega
  have hsll : (if l = l then { P.sl l with isExtant := false } else P.sl l) =
      { P.sl l with isExtant := false } := if_pos rfl
  refine ⟨⟨P.nLine,
    fun i => if i = l then { P.sl l with isExtant := false } else P.sl i,
    fun i => (P.childNodes i).filter (fun j => j ≠ l),
    P.current.erase l⟩, ?_, ?_, ?_, ?_, ?_, ?_, ?_, ?_, ?_⟩
  · unfold extinguishLineage
    rw [if_neg hne, if_pos hmem]
  · intro h a
    dsimp only
    rw [hsll]
  · dsimp only
    rw [hsll]
  · dsimp only
    rw [hsll]
  · dsimp only
    rw [hsll]
  · dsimp only
    rw [hsll]
  · exact Finset.not_mem_erase l _
  · intro i hm
    have := (List.mem_filter.1 hm).2
    simp at this
  · intro i hne2
    exact if_neg hne2

/-- Concrete phylogeny with two live lineages for the C10 witness. -/
def pC10 : Phylo 1 1 :=
  ⟨2, fun i => freshSL 1 1 i, fun i => if i = 0 then [1] else [], {0, 1}⟩

/-- Witness for C10 at a concrete input: extinguishing one of two live
lineages succeeds, clears its extancy flag, removes it from the live set and
from its parent's child list, and leaves its association state unchanged. -/
theorem extinguish_frame_effect_witness :
    ∃ P', extinguishLineage pC10 1 = .ok P' ∧
      (P'.sl 1).isExtant = false ∧ 1 ∉ P'.current := by
  obtain ⟨P', h1, _, _, _, _, h6, h7, _, _⟩ :=
    extinguish_frame_effect 1 1 pC10 1 (by decide) (by decide)
  exact ⟨P', h1, h6, h7⟩

/-- C7: for an extant lineage L with a consistent non-null distribution,
`split_lineage(L)` succeeds; the two fresh children (indices `nLine` and
`nLine + 1`) each satisfy the non-null-distribution invariant and carry
identical full copies of L's infected (host, area) pairs, so their union
equals L's pre-split set; L is marked non-extant, removed from the live set,
its distribution cleared (all cells zero, both caches empty); both children
are attached as L's tree children and added to the live-lineage set. -/
theorem split_preserves_distribution :
    ∀ (nh na : Nat) (occ : Occ nh na) (P : Phylo nh na) (l : Nat),
    Inv occ (P.sl l) → NonNull (P.sl l) → l ∈ P.current → l < P.nLine →
    ∃ P', splitLineage occ P l = .ok P' ∧
      P'.nLine = P.nLine + 2 ∧
      Inv occ (P'.sl P.nLine) ∧ NonNull (P'.sl P.nLine) ∧
      Inv occ (P'.sl (P.nLine + 1)) ∧ NonNull (P'.sl (P.nLine + 1)) ∧
      (∀ h a, (P'.sl P.nLine).dist h a = 1 ↔ (P.sl l).dist h a = 1) ∧
      (∀ h a, (P'.sl (P.nLine + 1)).dist h a = 1 ↔ (P.sl l).dist h a = 1) ∧
      (∀ h a, ((P'.sl P.nLine).dist h a = 1 ∨
        (P'.sl (P.nLine + 1)).dist h a = 1) ↔ (P.sl l).dist h a = 1) ∧
      (P'.sl l).isExtant = false ∧ l ∉ P'.current ∧
      (∀ h a, (P'.sl l).dist h a = 0) ∧
      (P'.sl l).infectedHosts = ∅ ∧ (P'.sl l).infectedAreas = ∅ ∧
      P'.childNodes l = P.childNodes l ++ [P.nLine, P.nLine + 1] ∧
      P.nLine ∈ P'.current ∧ (P.nLine + 1) ∈ P'.current := by
  intro nh na occ P l hInv hNN hmem hlt
  have hSym := hInv.2.2.2.2
  have hdf1 : ∀ (h : Fin nh) (a : Fin na),
      (freshSL nh na P.nLine).dist h a = 0 := fun _ _ => rfl
  have hdf2 : ∀ (h : Fin nh) (a : Fin na),
      (freshSL nh na (P.nLine + 1)).dist h a = 0 := fun _ _ => rfl
  obtain ⟨u1, hu1, hI1, hN1, hiff1, _, _⟩ :=
    update_into_empty hdf1 rfl rfl rfl hInv hNN
  obtain ⟨u2, hu2, hI2, hN2, hiff2, _, _⟩ :=
    update_into_empty hdf2 rfl rfl rfl hInv hNN
  have hsub : ({ P.sl l with isExtant := false } : SL nh na).infectedAreas ⊆
      ({ P.sl l with isExtant := false } : SL nh na).areaSym := by
    show (P.sl l).infectedAreas ⊆ (P.sl l).areaSym
    rw [hSym]
  have hsdiff : (P.sl l).areaSym \ (P.sl l).infectedAreas = ∅ := by
    rw [hSym]; exact Finset.sdiff_self _
  have hclear : clearDistribution
      ({ P.sl l with isExtant := false } : SL nh na) =
      .ok ⟨(P.sl l).index, false, fun _ _ => 0, ∅, ∅, ∅⟩ := by
    unfold clearDistribution
    rw [if_pos hsub]
    show Res.ok (⟨(P.sl l).index, false, fun _ _ => 0, ∅, ∅,
        (P.sl l).areaSym \ (P.sl l).infectedAreas⟩ : SL nh na) =
      Res.ok (⟨(P.sl l).index, false, fun _ _ => 0, ∅, ∅, ∅⟩ : SL nh na)
    rw [hsdiff]
  have hstep : splitLineage occ P l =
      .ok ⟨P.nLine + 2,
        fun i => if i = P.nLine then u1 else if i = P.nLine + 1 then u2
          else if i = l then ⟨(P.sl l).index, false, fun _ _ => 0, ∅, ∅, ∅⟩
          else P.sl i,
        fun i => if i = l then P.childNodes l ++ [P.nLine, P.nLine + 1]
          else P.childNodes i,
        insert (P.nLine + 1) (insert P.nLine (P.current.erase l))⟩ := by
    unfold splitLineage
    rw [hu1, hu2, hclear]
    dsimp only
    rw [if_pos hmem]
  have hcne1 : P.nLine + 1 ≠ P.nLine := by omega
  have hlne1 : l ≠ P.nLine := by omega
  have hlne2 : l ≠ P.nLine + 1 := by omega
  have hsl1 : (if P.nLine = P.nLine then u1
      else if P.nLine = P.nLine + 1 then u2
      else if P.nLine = l then
        (⟨(P.sl l).index, false, fun _ _ => 0, ∅, ∅, ∅⟩ : SL nh na)
      else P.sl P.nLine) = u1 := if_pos rfl
  have hsl2 : (if P.nLine + 1 = P.nLine then u1
      else if P.nLine + 1 = P.nLine + 1 then u2
      else if P.nLine + 1 = l then
        (⟨(P.sl l).index, false, fun _ _ => 0, ∅, ∅, ∅⟩ : SL nh na)
      else P.sl (P.nLine + 1)) = u2 := by
    rw [if_neg hcne1]
    exact if_pos rfl
  have hsll : (if l = P.nLine then u1
      else if l = P.nLine + 1 then u2
      else if l = l then
        (⟨(P.sl l).index, false, fun _ _ => 0, ∅, ∅, ∅⟩ : SL nh na)
      else P.sl l) =
      (⟨(P.sl l).index, false, fun _ _ => 0, ∅, ∅, ∅⟩ : SL nh na) := by
    rw [if_neg hlne1, if_neg hlne2]
    exact if_pos rfl
  refine ⟨_, hstep, rfl, ?_, ?_, ?_, ?_, ?_, ?_, ?_, ?_, ?_, ?_, ?_, ?_,
    ?_, ?_, ?_⟩
  · dsimp only
    rw [hsl1]
    exact hI1
  · dsimp only
    rw [hsl1]
    exact hN1
  · dsimp only
    rw [hsl2]
    exact hI2
  · dsimp only
    rw [hsl2]
    exact hN2
  · intro h a
    dsimp only
    rw [hsl1]
    exact hiff1 h a
  · intro h a
    dsimp only
    rw [hsl2]
    exact hiff2 h a
  · intro h a
    dsimp only
    rw [hsl1, hsl2]
    constructor
    · rintro (hx | hx)
      · exact (hiff1 h a).1 hx
      · exact (hiff2 h a).1 hx
    · intro hx
      exact Or.inl ((hiff1 h a).2 hx)
  · dsimp only
    rw [hsll]
  · intro hm
    rcases Finset.mem_insert.1 hm with he | hm2
    · exact hlne2 he
    · rcases Finset.mem_insert.1 hm2 with he | hm3
      · exact hlne1 he
      · exact (Finset.mem_erase.1 hm3).1 rfl
  · intro h a
    dsimp only
    rw [hsll]
  · dsimp only
    rw [hsll]
  · dsimp only
    rw [hsll]
  · dsimp only
    rw [if_pos rfl]
  · exact Finset.mem_insert_of_mem (Finset.mem_insert_self _ _)
  · exact Finset.mem_insert_self _ _

/-- Concrete one-lineage phylogeny with a non-null seed distribution for the
C7 witness. -/
def pC7 : Phylo 1 1 :=
  ⟨1, fun i => if i = 0 then s1 else freshSL 1 1 i, fun _ => [], {0}⟩

/-- Witness for C7 at a concrete input: splitting the seed lineage succeeds,
both children are non-null, and the parent is retired. -/
theorem split_preserves_distribution_witness :
    ∃ P', splitLineage occ1 pC7 0 = .ok P' ∧
      NonNull (P'.sl 1) ∧ NonNull (P'.sl 2) ∧
      (P'.sl 0).isExtant = false ∧ 0 ∉ P'.current := by
  obtain ⟨P', h1, _, _, h4, _, h6, _, _, _, h10, h11, _, _, _, _, _, _⟩ :=
    split_preserves_distribution 1 1 occ1 pC7 0
      (by decide) (by decide) (by decide) (by decide)
  exact ⟨P', h1, h4, h6, h10, h11⟩

/-- Extancy state of a `HostLineage` relative to simulation time. -/
inductive Extancy where
  | pre : Extancy
  | current : Extancy
  | post : Extancy
deriving DecidableEq

/-- Modelled from the spec: `utility.is_in_range` (inphest/utility.py) is not
under src/; §4.1-4.2 of the specification describe the check as the value
lying within the closed interval [lo, hi]. -/
def is_in_range (x lo hi : ℚ) : Prop := lo ≤ x ∧ x ≤ hi

instance (x lo hi : ℚ) : Decidable (is_in_range x lo hi) :=
  inferInstanceAs (Decidable (lo ≤ x ∧ x ≤ hi))

/-- State of a `HostLineage` (model.py lines 477-538): rescaled start/end
times, the start-distribution bitstring, the live `_current_areas` set, the
per-host decomposition of each `Area.host_lineages` back-reference
(`inAreaHosts`: areas whose back-reference set contains this host), and the
extancy state.  Identification fields (ids, leafset bitstrings) and the
debug-only bookkeeping (`debug_mode`, `_current_distribution_check_bitlist`,
`is_post_area_gain`) are omitted: no claim reads them. -/
structure HL (na : Nat) where
  startTime : ℚ
  endTime : ℚ
  startDistribution : List Char
  currentAreas : Finset (Fin na)
  inAreaHosts : Finset (Fin na)
  extancy : Extancy
deriving DecidableEq

/-- Time-bounds assertion performed by `activate` when a simulation time is
supplied. -/
def activateTimeOk {na : Nat} (hl : HL na) : Option ℚ → Prop
  | none => True
  | some tv => is_in_range tv hl.startTime hl.endTime

instance {na : Nat} (hl : HL na) (t : Option ℚ) :
    Decidable (activateTimeOk hl t) := by
  cases t with
  | none => exact inferInstanceAs (Decidable True)
  | some tv =>
    exact inferInstanceAs (Decidable (is_in_range tv hl.startTime hl.endTime))

/-- Area-seeding loop of `HostLineage.activate` (model.py lines 519-525):
walk the areas in positional order paired with the start-distribution
bitstring (the positional `area_idx == d_idx` assertions are identities in
this indexing); a "1" adds the area via `add_area` (whose assertion fails if
the area is already occupied), a "0" is skipped, and any other character
fails the assertion. -/
def activateSeed {na : Nat} : HL na → List (Fin na) → Res (HL na)
  | hl, [] => .ok hl
  | hl, i :: rest =>
    match hl.startDistribution.get? i.val with
    | some c =>
      if c = '1' then
        if i ∈ hl.currentAreas then
          .assertErrorEx hl
        else
          activateSeed { hl with
                           currentAreas := insert i hl.currentAreas,
                           inAreaHosts := insert i hl.inAreaHosts } rest
      else if c = '0' then
        activateSeed hl rest
      else
        .assertErrorEx hl
    | none => .assertErrorEx hl

/-- `HostLineage.activate` (model.py lines 508-531): assert the extancy state
is `pre`; if a simulation time is given, assert it lies within the lineage's
rescaled [start_time, end_time]; assert the system's area count equals the
bitstring width; seed `_current_areas` from the start-distribution bitstring;
finally set the extancy state to `current`. -/
def HL.activate {na : Nat} (hl : HL na) (t : Option ℚ) : Res (HL na) :=
  if hl.extancy = .pre then
    if activateTimeOk hl t then
      if hl.startDistribution.length = na then
        match activateSeed hl (List.finRange na) with
        | .ok hl2 => .ok { hl2 with extancy := .current }
        | e => e
      else .assertErrorEx hl
    else .assertErrorEx hl
  else .assertErrorEx hl

/-- `HostLineage.deactivate` (model.py lines 533-538): assert the extancy
state is `current`; remove this host from every occupied area's
`host_lineages` back-reference (`set.remove`, KeyError if absent — the
partially mutated state of the unordered iteration is not modeled); clear
`_current_areas`; set the extancy state to `post`. -/
def HL.deactivate {na : Nat} (hl : HL na) : Res (HL na) :=
  if hl.extancy = .current then
    if hl.currentAreas ⊆ hl.inAreaHosts then
      .ok { hl with currentAreas := ∅,
                    inAreaHosts := hl.inAreaHosts \ hl.currentAreas,
                    extancy := .post }
    else .keyErrorEx hl
  else .assertErrorEx hl

/-- Position of an extancy state in the `pre → current → post` order. -/
def extancyRank : Extancy → Nat
  | .pre => 0
  | .current => 1
  | .post => 2

/-- C9: the `HostLineage` extancy state machine is strictly monotonic with no
state re-visited: `activate` fails (assertion, state unchanged) from any
state other than `pre` and on success moves the state to `current`;
`deactivate` fails from any state other than `current` and on success moves
the state to `post`; and no call — successful or failing — ever moves the
state backward in the `pre → current → post` order. -/
theorem host_extancy_monotonic :
    ∀ (na : Nat) (hl : HL na) (t : Option ℚ),
    (hl.extancy ≠ .pre → HL.activate hl t = .assertErrorEx hl) ∧
    (∀ hl2, HL.activate hl t = .ok hl2 →
      hl.extancy = .pre ∧ hl2.extancy = .current) ∧
    (hl.extancy ≠ .current → HL.deactivate hl = .assertErrorEx hl) ∧
    (∀ hl2, HL.deactivate hl = .ok hl2 →
      hl.extancy = .current ∧ hl2.extancy = .post) ∧
    extancyRank (resState (HL.activate hl t)).extancy ≥
      extancyRank hl.extancy ∧
    extancyRank (resState (HL.deactivate hl)).extancy ≥
      extancyRank hl.extancy := by
  intro na hl t
  refine ⟨?_, ?_, ?_, ?_, ?_, ?_⟩
  · intro hne
    unfold HL.activate
    rw [if_neg hne]
  · intro hl2 hok
    by_cases hpre : hl.extancy = .pre
    · refine ⟨hpre, ?_⟩
      unfold HL.activate at hok
      rw [if_pos hpre] at hok
      by_cases htime : activateTimeOk hl t
      · rw [if_pos htime] at hok
        by_cases hlen : hl.startDistribution.length = na
        · rw [if_pos hlen] at hok
          cases hseed : activateSeed hl (List.finRange na) with
          | ok hl3 =>
            rw [hseed] at hok
            injection hok with hh
            rw [← hh]
          | nullDistributionEx i s =>
            rw [hseed] at hok; exact Res.noConfusion hok
          | keyErrorEx s =>
            rw [hseed] at hok; exact Res.noConfusion hok
          | assertErrorEx s =>
            rw [hseed] at hok; exact Res.noConfusion hok
          | valueErrorEx s =>
            rw [hseed] at hok; exact Res.noConfusion hok
          | totalExtinctionEx s =>
            rw [hseed] at hok; exact Res.noConfusion hok
        · rw [if_neg hlen] at hok
          exact Res.noConfusion hok
      · rw [if_neg htime] at hok
        exact Res.noConfusion hok
    · unfold HL.activate at hok
      rw [if_neg hpre] at hok
      exact Res.noConfusion hok
  · intro hne
    unfold HL.deactivate
    rw [if_neg hne]
  · intro hl2 hok
    by_cases hcur : hl.extancy = .current
    · refine ⟨hcur, ?_⟩
      unfold HL.deactivate at hok
      rw [if_pos hcur] at hok
      by_cases hsub : hl.currentAreas ⊆ hl.inAreaHosts
      · rw [if_pos hsub] at hok
        injection hok with hh
        rw [← hh]
      · rw [if_neg hsub] at hok
        exact Res.noConfusion hok
    · unfold HL.deactivate at hok
      rw [if_neg hcur] at hok
      exact Res.noConfusion hok
  · by_cases hpre : hl.extancy = .pre
    · rw [hpre]
      exact Nat.zero_le _
    · have heq : HL.activate hl t = .assertErrorEx hl := by
        unfold HL.activate
        rw [if_neg hpre]
      rw [heq]
      exact Nat.le_refl _
  · by_cases hcur : hl.extancy = .current
    · unfold HL.deactivate
      rw [if_pos hcur, hcur]
      by_cases hsub : hl.currentAreas ⊆ hl.inAreaHosts
      · rw [if_pos hsub]
        exact Nat.le_succ 1
      · rw [if_neg hsub]
        show extancyRank hl.extancy ≥ extancyRank Extancy.current
        rw [hcur]
    · have heq : HL.deactivate hl = .assertErrorEx hl := by
        unfold HL.deactivate
        rw [if_neg hcur]
      rw [heq]
      exact Nat.le_refl _

/-- Concrete pre-state host lineage for the C9 witness. -/
def hlPre : HL 1 := ⟨0, 10, ['1'], ∅, ∅, .pre⟩

/-- Concrete current-state host lineage (the result of activating `hlPre`)
for the C9 witness. -/
def hlCur : HL 1 := ⟨0, 10, ['1'], {0}, {0}, .current⟩

/-- Concrete post-state host lineage for the C9 witness. -/
def hlPost : HL 1 := ⟨0, 10, ['1'], ∅, ∅, .post⟩

/-- Witness for C9 at concrete inputs: activating from `post` fails with the
state unchanged; a successful activation from `pre` ends in `current`; a
successful deactivation from `current` ends in `post`; deactivating from
`pre` fails. -/
theorem host_extancy_monotonic_witness :
    HL.activate hlPost (some 1) = .assertErrorEx hlPost ∧
    (hlPre.extancy = .pre ∧ hlCur.extancy = .current) ∧
    (hlCur.extancy = .current ∧ hlPost.extancy = .post) ∧
    HL.deactivate hlPre = .assertErrorEx hlPre := by
  refine ⟨?_, ?_, ?_, ?_⟩
  · exact (host_extancy_monotonic 1 hlPost (some 1)).1 (by decide)
  · exact (host_extancy_monotonic 1 hlPre (some 1)).2.1 hlCur (by decide)
  · exact (host_extancy_monotonic 1 hlCur none).2.2.2.1 hlPost (by decide)
  · exact (host_extancy_monotonic 1 hlPre none).2.2.1 (by decide)

/-- `HostHistory.HostLineageDefinition` (model.py lines 184-198): immutable
record of one host lineage.  Distribution bitstrings are kept as character
lists (Python's `list(bitstring)` is then the identity). -/
structure HostLineageDefinition where
  lineage_id : Nat
  lineage_parent_id : Nat
  leafset_bitstring : String
  split_bitstring : String
  lineage_start_time : ℚ
  lineage_end_time : ℚ
  lineage_start_distribution_bitstring : List Char
  lineage_end_distribution_bitstring : List Char
  is_seed_node : Bool
  is_leaf : Bool
  is_extant_leaf : Bool
deriving DecidableEq

/-- `HostHistory.HostEvent` (model.py lines 200-210). -/
structure HostEvent where
  event_time : ℚ
  weight : ℚ
  lineage_id : Nat
  event_type : String
  event_subtype : String
  area_idx : Option Nat
  child0_lineage_id : Option Nat
  child1_lineage_id : Option Nat
deriving DecidableEq

/-- `HostHistory` state used by `validate` (model.py lines 212-220): the
insertion-ordered lineage-definition map and the event list. -/
structure HostHistory where
  lineages : List (Nat × HostLineageDefinition)
  events : List HostEvent
deriving DecidableEq

/-- Exceptions escaping from `HostHistory.validate`. -/
inductive VErr where
  | assertionFailure : VErr
  | indexError : VErr
  | typeError : VErr
  | keyError : VErr
deriving DecidableEq

/-- Append an event to its lineage's group, preserving the key insertion
order of Python's `defaultdict(list)` (model.py lines 262-264). -/
def addToGroup (acc : List (Nat × List HostEvent)) (e : HostEvent) :
    List (Nat × List HostEvent) :=
  match acc with
  | [] => [(e.lineage_id, [e])]
  | (k, es) :: rest =>
    if k = e.lineage_id then (k, es ++ [e]) :: rest
    else (k, es) :: addToGroup rest e

/-- Group the event list by lineage id in insertion order. -/
def groupByLineage (events : List HostEvent) :
    List (Nat × List HostEvent) :=
  events.foldl addToGroup []

/-- Stable insertion of an event into a time-sorted list. -/
def insortByTime (e : HostEvent) : List HostEvent → List HostEvent
  | [] => [e]
  | x :: xs =>
    if e.event_time ≤ x.event_time then e :: x :: xs
    else x :: insortByTime e xs

/-- Stable ascending sort by event time (Python `list.sort` with a time
key). -/
def sortByTime (l : List HostEvent) : List HostEvent :=
  l.foldr insortByTime []

/-- The sorting statement at model.py line 267 reads
`lineage_events[event.lineage_id].sort(...)`: inside the
`for lineage_id in lineage_events` loop, `event` is the leaked loop variable
of the earlier grouping loop, i.e. the LAST event of `self.events`, not the
current lineage.  Each outer iteration therefore re-sorts only that one
lineage's list (idempotently, before any replay); every other lineage's
events are replayed in insertion order. -/
def applySortBug (groups : List (Nat × List HostEvent)) (k : Nat) :
    List (Nat × List HostEvent) :=
  groups.map (fun p => if p.1 = k then (p.1, sortByTime p.2) else p)

/-- Lookup in the lineage-definition map (`self.lineages[lineage_id]`;
KeyError if absent). -/
def lookupLineage (lineages : List (Nat × HostLineageDefinition))
    (lid : Nat) : Option HostLineageDefinition :=
  (lineages.find? (fun p => p.1 = lid)).map Prod.snd

/-- Replay of one lineage's event list by `HostHistory.validate` (model.py
lines 268-287).  Each event's time must lie in the lineage's own
[start_time, end_time]; an anagenetic area gain asserts the bit at
`area_idx` is "0" and an area loss asserts it is "1"; a cladogenesis event
asserts the running bitlist still equals the declared start bitstring; any
other event type falls through.  NOTE (faithful to the source): lines 278
and 285 read `distribution_bitlist[event.area_idx] == "1"` / `== "0"` —
comparison expressions, not assignments — so the running bitlist is never
updated during the replay. -/
def validateLineageEvents (ld : HostLineageDefinition) :
    List Char → List HostEvent → Except VErr Unit
  | _, [] => .ok ()
  | bitlist, e :: rest =>
    if is_in_range e.event_time ld.lineage_start_time ld.lineage_end_time then
      if e.event_type = "anagenesis" ∧ e.event_subtype = "area_gain" then
        match e.area_idx with
        | some idx =>
          match bitlist.get? idx with
          | some c =>
            if c = '0' then
              -- line 278 is a no-op comparison: bitlist stays unchanged
              validateLineageEvents ld bitlist rest
            else .error .assertionFailure
          | none => .error .indexError
        | none => .error .typeError
      else if e.event_type = "anagenesis" ∧ e.event_subtype = "area_loss" then
        match e.area_idx with
        | some idx =>
          match bitlist.get? idx with
          | some c =>
            if c = '1' then
              -- line 285 is a no-op comparison: bitlist stays unchanged
              validateLineageEvents ld bitlist rest
            else .error .assertionFailure
          | none => .error .indexError
        | none => .error .typeError
      else if e.event_type = "cladogenesis" then
        if bitlist = ld.lineage_start_distribution_bitstring then
          validateLineageEvents ld bitlist rest
        else .error .assertionFailure
      else
        validateLineageEvents ld bitlist rest
    else .error .assertionFailure

/-- Outer loop of `HostHistory.validate`: for each lineage (in group
insertion order), replay its events against its declared start
distribution. -/
def validateGroups (lineages : List (Nat × HostLineageDefinition)) :
    List (Nat × List HostEvent) → Except VErr Unit
  | [] => .ok ()
  | (lid, evs) :: rest =>
    match lookupLineage lineages lid with
    | some ld =>
      match validateLineageEvents ld
          ld.lineage_start_distribution_bitstring evs with
      | .ok _ => validateGroups lineages rest
      | .error err => .error err
    | none => .error .keyError

/-- `HostHistory.validate` (model.py lines 259-287): group the events by
lineage, apply the leaked-variable sort (only the last event's lineage is
time-sorted), then replay each lineage's events against its start
distribution. -/
def HostHistory.validate (hh : HostHistory) : Except VErr Unit :=
  let groups := groupByLineage hh.events
  match hh.events.getLast? with
  | some e => validateGroups hh.lineages (applySortBug groups e.lineage_id)
  | none => validateGroups hh.lineages groups

/-- Single lineage of the C3 scenario: id 5, lifespan [0, 10], start
distribution "010", declared end distribution "100". -/
def ldC3 : HostLineageDefinition :=
  ⟨5, 0, "", "", 0, 10, ['0', '1', '0'], ['1', '0', '0'],
    true, false, false⟩

/-- Area-gain event at index 0, time 1. -/
def evGain0a : HostEvent :=
  ⟨1, 1, 5, "anagenesis", "area_gain", some 0, none, none⟩

/-- Second area-gain event at index 0, time 2 — a double gain the claim says
must be rejected. -/
def evGain0b : HostEvent :=
  ⟨2, 1, 5, "anagenesis", "area_gain", some 0, none, none⟩

/-- Area-loss event at index 1, time 2. -/
def evLoss1 : HostEvent :=
  ⟨2, 1, 5, "anagenesis", "area_loss", some 1, none, none⟩

/-- History with the claim's positive scenario: gain at 0, then loss at 1. -/
def hhC3pos : HostHistory := ⟨[(5, ldC3)], [evGain0a, evLoss1]⟩

/-- History with a double gain at index 0 (both events within the lineage's
time bounds). -/
def hhC3dbl : HostHistory := ⟨[(5, ldC3)], [evGain0a, evGain0b]⟩

/-- JSON-style configuration value: the model definition dictionaries are
JSON objects holding numbers, strings and nested objects. -/
inductive JVal where
  | num : ℚ → JVal
  | str : String → JVal
  | obj : List (String × JVal) → JVal

/-- A definition dictionary: an insertion-ordered association list, as a
Python `dict` built from JSON. -/
def JDict := List (String × JVal)

/-- Exceptions escaping `parse_definition` (TypeError for leftover keys
carries the offending dict, as Python's message interpolates it). -/
inductive PErr where
  | keyError : PErr
  | valueError : PErr
  | attributeError : PErr
  | typeErrorNotAMapping : PErr
  | typeError : JDict → PErr

/-- `d[k]` lookup on an association-list dict. -/
def lookupKey (d : JDict) (k : String) : Option JVal :=
  (d.find? (fun p => p.1 == k)).map Prod.snd

/-- Remove the binding for `k` (keys are unique in dicts built from JSON
objects, so removing every occurrence matches Python `dict.pop`). -/
def eraseKey (d : JDict) (k : String) : JDict :=
  d.filter (fun p => !(p.1 == k))

/-- `d.pop(k, default)`: the value (or default) together with the dict minus
the key. -/
def popOr (d : JDict) (k : String) (dflt : JVal) : JVal × JDict :=
  match lookupKey d k with
  | some v => (v, eraseKey d k)
  | none => (dflt, d)

/-- Python `float(v)` restricted to the numeric JSON literals used by the
model definitions; a non-numeric value raises ValueError. -/
def floatOf : JVal → Except PErr ℚ
  | .num q => .ok q
  | _ => .error .valueError

/-- Python `dict(v)`: requires a mapping, raising TypeError otherwise. -/
def asDict : JVal → Except PErr JDict
  | .obj d => .ok d
  | _ => .error .typeErrorNotAMapping

/-- `dict(d.pop(k, {}))`: the sub-block dict (empty when absent) together
with the outer dict minus the key. -/
def popDict (d : JDict) (k : String) : Except PErr (JDict × JDict) :=
  match lookupKey d k with
  | some v => (asDict v).map (fun sub => (sub, eraseKey d k))
  | none => .ok ([], d)

/-- `float(d.pop(k, dflt))`. -/
def popFloat (d : JDict) (k : String) (dflt : ℚ) : Except PErr (ℚ × JDict) :=
  match popOr d k (.num dflt) with
  | (v, d2) => (floatOf v).map (fun q => (q, d2))

/-- Empty-leftover check: `if d: raise TypeError(...)` with the leftover
dict interpolated into the message. -/
def checkEmpty (d : JDict) : Except PErr Unit :=
  match d with
  | [] => .ok ()
  | p :: rest => .error (.typeError (p :: rest))

/-- `RateFunction` (model.py lines 125-177): definition type, content and
description.  Content and description are stored as popped (no conversion
except `float` for fixed values), so they stay `JVal`. -/
structure RateFunction where
  definition_type : String
  definition_content : JVal
  description : JVal

/-- Python `s.replace("-", "_")`: the pattern is a single character, so the
replacement is exactly a character-wise map. -/
def replaceHyphens (s : String) : String :=
  String.mk (s.data.map (fun c => if c = '-' then '_' else c))

/-- `RateFunction.parse_definition` followed by `compile_function`
(model.py lines 148-167): pop `definition_type` (KeyError if absent;
AttributeError if `.replace` is called on a non-string), pop `definition`
(KeyError if absent), pop `description` with default "", reject leftover
keys with TypeError; then `compile_function` converts a `fixed_value`
content with `float` and rejects unrecognized types with ValueError.
`lambda_definition` contents are compiled with `eval`, which is opaque
here, so the content string is stored unchanged; `function_object`
contents (Python callables) never occur in the JSON domain. -/
def RateFunction.parse_definition (d : JDict) : Except PErr RateFunction := do
  let t0 ← match lookupKey d "definition_type" with
    | some (.str t) => Except.ok t
    | some _ => Except.error .attributeError
    | none => Except.error .keyError
  let t := replaceHyphens t0
  let d1 := eraseKey d "definition_type"
  let content ← match lookupKey d1 "definition" with
    | some v => Except.ok v
    | none => Except.error .keyError
  let d2 := eraseKey d1 "definition"
  match popOr d2 "description" (.str "") with
  | (desc, d3) => do
    let _ ← checkEmpty d3
    if t = "fixed_value" then
      match content with
      | .num q => Except.ok ⟨t, .num q, desc⟩
      | _ => Except.error .valueError
    else if t = "lambda_definition" then Except.ok ⟨t, content, desc⟩
    else if t = "function_object" then Except.ok ⟨t, content, desc⟩
    else Except.error .valueError

/-- The default `RateFunction(definition_type="lambda_definition",
definition_content="lambda **kwargs: ...", description="fixed: ...")`
used when a weight key is absent. -/
def defaultRateFunction (content desc : String) : RateFunction :=
  ⟨"lambda_definition", .str content, .str desc⟩

/-- Pop a weight-function sub-dictionary and parse it, or fall back to the
default rate function (the `if key in d: ... else: RateFunction(...)`
pattern of model.py lines 1304-1311 etc.). -/
def popRateFunction (d : JDict) (k : String) (dfltContent dfltDesc : String) :
    Except PErr (RateFunction × JDict) :=
  match lookupKey d k with
  | some v => do
    let sub ← asDict v
    let rf ← RateFunction.parse_definition sub
    Except.ok (rf, eraseKey d k)
  | none => .ok (defaultRateFunction dfltContent dfltDesc, d)

/-- `InphestModel` configuration state set by `parse_definition`
(model.py lines 1272-1450).  Mean rates and `model_id` are stored exactly
as popped (no conversion), hence `JVal`; the time-scale factor and the
cladogenetic weights go through `float`. -/
structure InphestModel where
  model_id : JVal
  host_to_symbiont_time_scale_factor : ℚ
  mean_symbiont_lineage_birth_rate : JVal
  symbiont_lineage_birth_weight_function : RateFunction
  mean_symbiont_lineage_death_rate : JVal
  symbiont_lineage_death_weight_function : RateFunction
  mean_symbiont_lineage_host_gain_rate : JVal
  symbiont_lineage_host_gain_weight_function : RateFunction
  mean_symbiont_lineage_host_loss_rate : JVal
  symbiont_lineage_host_loss_weight_function : RateFunction
  host_cladogenesis_sympatric_subset_speciation_weight : ℚ
  host_cladogenesis_single_host_vicariance_speciation_weight : ℚ
  host_cladogenesis_widespread_vicariance_speciation_weight : ℚ
  host_cladogenesis_founder_event_speciation_weight : ℚ
  mean_symbiont_lineage_area_gain_rate : JVal
  symbiont_lineage_area_gain_weight_function : RateFunction
  mean_symbiont_lineage_area_loss_rate : JVal
  symbiont_lineage_area_loss_weight_function : RateFunction
  symbiont_cladogenesis_sympatric_subset_speciation_weight : ℚ
  symbiont_cladogenesis_single_area_vicariance_speciation_weight : ℚ
  symbiont_cladogenesis_widespread_vicariance_speciation_weight : ℚ
  symbiont_cladogenesis_founder_event_speciation_weight : ℚ

/-- `InphestModel.parse_definition` (model.py lines 1272-1450), in source
order.  Faithful details: the diversification block (lines 1298-1330) has
NO leftover-key check; line 1413 pops the key
"anagenetic_geographical_range_evolution" a SECOND time — the first pop at
line 1395 already removed it, so the area-loss sub-block always reads an
empty dict and the leftover check at line 1431 inspects that empty second
dict, never the first one. -/
def InphestModel.parse_definition (model_definition : JDict) :
    Except PErr InphestModel := do
  -- model.py 1284-1288: a missing model_id is first defaulted, then popped
  match popOr model_definition "model_id" (.str "Model1") with
  | (model_id, d1) => do
  let (tsf, d2) ← popFloat d1 "host_to_symbiont_time_scale_factor" 1
  -- Diversification (1298-1330)
  let (div0, d3) ← popDict d2 "diversification"
  match popOr div0 "mean_symbiont_lineage_birth_rate" (.num (3/100)) with
  | (birthRate, div1) => do
  let (birthW, div2) ← popRateFunction div1 "symbiont_lineage_birth_weight"
    "lambda **kwargs: 1.00" "fixed: 1.00"
  match popOr div2 "mean_symbiont_lineage_death_rate" (.num 0) with
  | (deathRate, div3) => do
  let (deathW, _div4) ← popRateFunction div3 "symbiont_lineage_death_weight"
    "lambda **kwargs: 1.00" "fixed: 1.00"
  -- no checkEmpty on the diversification leftovers in the source
  -- Anagenetic host assemblage evolution (1335-1373)
  let (ah0, d4) ← popDict d3 "anagenetic_host_assemblage_evolution"
  match popOr ah0 "mean_symbiont_lineage_host_gain_rate" (.num (3/100)) with
  | (hostGainRate, ah1) => do
  let (hostGainW, ah2) ← popRateFunction ah1 "symbiont_lineage_host_gain_weight"
    "lambda **kwargs: 1.00" "fixed: 1.00"
  match popOr ah2 "mean_symbiont_lineage_host_loss_rate" (.num 0) with
  | (hostLossRate, ah3) => do
  let (hostLossW, ah4) ← popRateFunction ah3 "symbiont_lineage_host_loss_weight"
    "lambda **kwargs: 1.0" "fixed: 1.0"
  let _ ← checkEmpty ah4
  -- Cladogenetic host assemblage evolution (1376-1382)
  let (ch0, d5) ← popDict d4 "cladogenetic_host_assemblage_evolution"
  let (hcSS, ch1) ← popFloat ch0 "sympatric_subset_speciation_weight" 1
  let (hcSV, ch2) ← popFloat ch1 "single_host_vicariance_speciation_weight" 1
  let (hcWV, ch3) ← popFloat ch2 "widespread_vicariance_speciation_weight" 1
  let (hcFE, ch4) ← popFloat ch3 "founder_event_speciation_weight" 0
  let _ ← checkEmpty ch4
  -- Anagenetic geographical range evolution, first pop (1395-1410)
  let (ag0, d6) ← popDict d5 "anagenetic_geographical_range_evolution"
  match popOr ag0 "mean_symbiont_lineage_area_gain_rate" (.num (3/100)) with
  | (areaGainRate, ag1) => do
  let (areaGainW, _ag2) ← popRateFunction ag1 "symbiont_lineage_area_gain_weight"
    "lambda **kwargs: 1.00" "fixed: 1.00"
  -- second pop of the SAME key (1413): always yields the empty dict here
  let (ag0b, d7) ← popDict d6 "anagenetic_geographical_range_evolution"
  match popOr ag0b "mean_symbiont_lineage_area_loss_rate" (.num 0) with
  | (areaLossRate, ag1b) => do
  let (areaLossW, ag2b) ← popRateFunction ag1b "symbiont_lineage_area_loss_weight"
    "lambda **kwargs: 1.0" "fixed: 1.0"
  let _ ← checkEmpty ag2b
  -- Cladogenetic geographical range evolution (1436-1442)
  let (cg0, d8) ← popDict d7 "cladogenetic_geographical_range_evolution"
  let (scSS, cg1) ← popFloat cg0 "sympatric_subset_speciation_weight" 1
  let (scSV, cg2) ← popFloat cg1 "single_area_vicariance_speciation_weight" 1
  let (scWV, cg3) ← popFloat cg2 "widespread_vicariance_speciation_weight" 1
  let (scFE, cg4) ← popFloat cg3 "founder_event_speciation_weight" 0
  let _ ← checkEmpty cg4
  -- top-level leftover check (1449-1450)
  let _ ← checkEmpty d8
  Except.ok ⟨model_id, tsf, birthRate, birthW, deathRate, deathW,
    hostGainRate, hostGainW, hostLossRate, hostLossW,
    hcSS, hcSV, hcWV, hcFE,
    areaGainRate, areaGainW, areaLossRate, areaLossW,
    scSS, scSV, scWV, scFE⟩

/-- `RateFunction.as_definition` (model.py lines 169-177).  The
`function_object` branch stringifies a Python callable, which lies outside
the JSON value domain; all model-written functions are `lambda_definition`
or `fixed_value`, which are emitted unchanged. -/
def RateFunction.as_definition (rf : RateFunction) : JDict :=
  [("definition_type", .str rf.definition_type),
   ("definition", rf.definition_content),
   ("description", rf.description)]

/-- `diversification_as_definition` (model.py lines 1487-1493).  NOTE: the
weight functions are emitted under the keys "lineage_birth_rate" and
"lineage_death_rate", which `parse_definition` never reads (it reads
"symbiont_lineage_birth_weight" / "symbiont_lineage_death_weight"). -/
def diversification_as_definition (m : InphestModel) : JDict :=
  [("mean_symbiont_lineage_birth_rate", m.mean_symbiont_lineage_birth_rate),
   ("lineage_birth_rate", .obj m.symbiont_lineage_birth_weight_function.as_definition),
   ("mean_symbiont_lineage_death_rate", m.mean_symbiont_lineage_death_rate),
   ("lineage_death_rate", .obj m.symbiont_lineage_death_weight_function.as_definition)]

/-- `anagenetic_host_assemblage_evolution_as_definition` (lines 1495-1501). -/
def anagenetic_host_assemblage_evolution_as_definition (m : InphestModel) : JDict :=
  [("mean_symbiont_lineage_host_gain_rate", m.mean_symbiont_lineage_host_gain_rate),
   ("symbiont_lineage_host_gain_weight", .obj m.symbiont_lineage_host_gain_weight_function.as_definition),
   ("mean_symbiont_lineage_host_loss_rate", m.mean_symbiont_lineage_host_loss_rate),
   ("symbiont_lineage_host_loss_weight", .obj m.symbiont_lineage_host_loss_weight_function.as_definition)]

/-- `cladogenetic_host_assemblage_evolution_as_definition` (lines 1503-1509). -/
def cladogenetic_host_assemblage_evolution_as_definition (m : InphestModel) : JDict :=
  [("sympatric_subset_speciation_weight", .num m.host_cladogenesis_sympatric_subset_speciation_weight),
   ("single_host_vicariance_speciation_weight", .num m.host_cladogenesis_single_host_vicariance_speciation_weight),
   ("widespread_vicariance_speciation_weight", .num m.host_cladogenesis_widespread_vicariance_speciation_weight),
   ("founder_event_speciation_weight", .num m.host_cladogenesis_founder_event_speciation_weight)]

/-- `anagenetic_geographical_range_evolution_as_definition` (lines 1511-1517). -/
def anagenetic_geographical_range_evolution_as_definition (m : InphestModel) : JDict :=
  [("mean_symbiont_lineage_area_gain_rate", m.mean_symbiont_lineage_area_gain_rate),
   ("symbiont_lineage_area_gain_weight", .obj m.symbiont_lineage_area_gain_weight_function.as_definition),
   ("mean_symbiont_lineage_area_loss_rate", m.mean_symbiont_lineage_area_loss_rate),
   ("symbiont_lineage_area_loss_weight", .obj m.symbiont_lineage_area_loss_weight_function.as_definition)]

/-- `cladogenetic_geographical_range_evolution_as_definition` (lines 1519-1525). -/
def cladogenetic_geographical_range_evolution_as_definition (m : InphestModel) : JDict :=
  [("sympatric_subset_speciation_weight", .num m.symbiont_cladogenesis_sympatric_subset_speciation_weight),
   ("single_area_vicariance_speciation_weight", .num m.symbiont_cladogenesis_single_area_vicariance_speciation_weight),
   ("widespread_vicariance_speciation_weight", .num m.symbiont_cladogenesis_widespread_vicariance_speciation_weight),
   ("founder_event_speciation_weight", .num m.symbiont_cladogenesis_founder_event_speciation_weight)]

/-- `InphestModel.write_model` (model.py lines 1475-1485): the ordered
definition dictionary that is JSON-dumped. -/
def InphestModel.write_model (m : InphestModel) : JDict :=
  [("model_id", m.model_id),
   ("host_to_symbiont_time_scale_factor", .num m.host_to_symbiont_time_scale_factor),
   ("diversification", .obj (diversification_as_definition m)),
   ("anagenetic_host_assemblage_evolution", .obj (anagenetic_host_assemblage_evolution_as_definition m)),
   ("cladogenetic_host_assemblage_evolution", .obj (cladogenetic_host_assemblage_evolution_as_definition m)),
   ("anagenetic_geographical_range_evolution", .obj (anagenetic_geographical_range_evolution_as_definition m)),
   ("cladogenetic_geographical_range_evolution", .obj (cladogenetic_geographical_range_evolution_as_definition m))]

/-- A fixed-value weight-function sub-dictionary. -/
def fixedRF (q : ℚ) (desc : String) : JVal :=
  .obj [("definition_type", .str "fixed_value"),
        ("definition", .num q),
        ("description", .str desc)]

/-- A definition dictionary with every recognized field of every sub-model
block explicitly populated (the hypothesis of the round-trip claim). -/
def dC4 : JDict :=
  [("model_id", .str "M"),
   ("host_to_symbiont_time_scale_factor", .num 2),
   ("diversification", .obj
     [("mean_symbiont_lineage_birth_rate", .num (1/10)),
      ("symbiont_lineage_birth_weight", fixedRF 5 "my birth weight"),
      ("mean_symbiont_lineage_death_rate", .num (1/5)),
      ("symbiont_lineage_death_weight", fixedRF 7 "my death weight")]),
   ("anagenetic_host_assemblage_evolution", .obj
     [("mean_symbiont_lineage_host_gain_rate", .num (1/4)),
      ("symbiont_lineage_host_gain_weight", fixedRF 1 "hg"),
      ("mean_symbiont_lineage_host_loss_rate", .num (1/3)),
      ("symbiont_lineage_host_loss_weight", fixedRF 1 "hl")]),
   ("cladogenetic_host_assemblage_evolution", .obj
     [("sympatric_subset_speciation_weight", .num 2),
      ("single_host_vicariance_speciation_weight", .num 3),
      ("widespread_vicariance_speciation_weight", .num 4),
      ("founder_event_speciation_weight", .num 5)]),
   ("anagenetic_geographical_range_evolution", .obj
     [("mean_symbiont_lineage_area_gain_rate", .num (1/6)),
      ("symbiont_lineage_area_gain_weight", fixedRF 1 "ag"),
      ("mean_symbiont_lineage_area_loss_rate", .num (1/2)),
      ("symbiont_lineage_area_loss_weight", fixedRF 9 "al")]),
   ("cladogenetic_geographical_range_evolution", .obj
     [("sympatric_subset_speciation_weight", .num 6),
      ("single_area_vicariance_speciation_weight", .num 7),
      ("widespread_vicariance_speciation_weight", .num 8),
      ("founder_event_speciation_weight", .num 9)])]

/-- C4 (code bug): the write_model / parse_definition round trip loses
values even for a fully populated definition.  Evaluating the code on dC4:
(1) the parsed model's mean_symbiont_lineage_area_loss_rate is already the
default 0, not dC4's 1/2, and its area-loss weight description is the
default "fixed: 1.0", not "al" — because line 1413 re-pops the already
removed "anagenetic_geographical_range_evolution" key, so the loss
sub-block reads an empty dict; (2) writing the model and re-parsing yields
default birth and death weight descriptions "fixed: 1.00" instead of dC4's
"my birth weight" / "my death weight" — because diversification_as_definition
emits the weight functions under keys parse_definition never reads. -/
theorem write_model_roundtrip_loses_values :
    (InphestModel.parse_definition dC4).map
        (fun m => (m.mean_symbiont_lineage_area_loss_rate,
                   m.symbiont_lineage_area_loss_weight_function.description,
                   m.symbiont_lineage_birth_weight_function.description))
      = Except.ok (JVal.num 0, JVal.str "fixed: 1.0", JVal.str "my birth weight") ∧
    JVal.num 0 ≠ JVal.num (1/2) ∧
    JVal.str "fixed: 1.0" ≠ JVal.str "al" ∧
    (InphestModel.parse_definition dC4).map
        (fun m => (InphestModel.parse_definition m.write_model).map
          (fun m2 => (m2.symbiont_lineage_birth_weight_function.description,
                      m2.symbiont_lineage_death_weight_function.description,
                      m2.mean_symbiont_lineage_area_loss_rate)))
      = Except.ok (Except.ok
          (JVal.str "fixed: 1.00", JVal.str "fixed: 1.00", JVal.num 0)) ∧
    JVal.str "fixed: 1.00" ≠ JVal.str "my birth weight" := by
  refine ⟨rfl, ?_, ?_, rfl, ?_⟩
  · intro h
    injection h with h2
    exact absurd h2 (by norm_num)
  · intro h
    injection h with h2
    exact absurd h2 (by decide)
  · intro h
    injection h with h2
    exact absurd h2 (by decide)

/-- A definition whose diversification block carries an unrecognized key. -/
def dC5div : JDict := [("diversification", .obj [("bogus", .num 1)])]

/-- A definition whose anagenetic_geographical_range_evolution block
carries an unrecognized key. -/
def dC5geo : JDict :=
  [("anagenetic_geographical_range_evolution", .obj [("bogus2", .num 1)])]

/-- C5 counterexample: an unrecognized key inside the diversification block
is silently ignored (the source has no leftover-key check for that block),
and an unrecognized key inside the anagenetic_geographical_range_evolution
block is silently ignored too (the leftover check at line 1431 inspects the
always-empty result of the second pop of that key): both definitions parse
successfully instead of raising the TypeError the claim requires. -/
theorem configuration_closure_counterexample :
    ((InphestModel.parse_definition dC5div).map (fun _ => ())
        = Except.ok ()) ∧
    ((InphestModel.parse_definition dC5geo).map (fun _ => ())
        = Except.ok ()) := by
  exact ⟨rfl, rfl⟩

/-- The seven top-level keys recognized by `InphestModel.parse_definition`. -/
def recognizedTopLevelKeys : List String :=
  ["model_id", "host_to_symbiont_time_scale_factor", "diversification",
   "anagenetic_host_assemblage_evolution",
   "cladogenetic_host_assemblage_evolution",
   "anagenetic_geographical_range_evolution",
   "cladogenetic_geographical_range_evolution"]

/-- C5 (amended): unrecognized keys are rejected at the top level and in
the anagenetic-host and both cladogenetic blocks — a definition consisting
of any single unrecognized top-level key raises TypeError carrying that
binding, and an unrecognized key inside those three checked sub-blocks
raises TypeError carrying it — while (per the counterexample) the
diversification and anagenetic_geographical_range_evolution blocks ignore
unrecognized keys silently. -/
theorem configuration_closure_amended :
    (∀ k v, k ∉ recognizedTopLevelKeys →
      InphestModel.parse_definition [(k, v)]
        = Except.error (PErr.typeError [(k, v)])) ∧
    InphestModel.parse_definition
        [("anagenetic_host_assemblage_evolution", .obj [("bogus", .num 1)])]
      = Except.error (PErr.typeError [("bogus", .num 1)]) ∧
    InphestModel.parse_definition
        [("cladogenetic_host_assemblage_evolution", .obj [("bogus", .num 1)])]
      = Except.error (PErr.typeError [("bogus", .num 1)]) ∧
    InphestModel.parse_definition
        [("cladogenetic_geographical_range_evolution", .obj [("bogus", .num 1)])]
      = Except.error (PErr.typeError [("bogus", .num 1)]) := by
  refine ⟨?_, rfl, rfl, rfl⟩
  intro k v hk
  simp only [recognizedTopLevelKeys, List.mem_cons, List.not_mem_nil, or_false,
    not_or] at hk
  obtain ⟨h1, h2, h3, h4, h5, h6, h7⟩ := hk
  have e1 : (k == "model_id") = false := beq_eq_false_iff_ne.mpr h1
  have e2 : (k == "host_to_symbiont_time_scale_factor") = false :=
    beq_eq_false_iff_ne.mpr h2
  have e3 : (k == "diversification") = false := beq_eq_false_iff_ne.mpr h3
  have e4 : (k == "anagenetic_host_assemblage_evolution") = false :=
    beq_eq_false_iff_ne.mpr h4
  have e5 : (k == "cladogenetic_host_assemblage_evolution") = false :=
    beq_eq_false_iff_ne.mpr h5
  have e6 : (k == "anagenetic_geographical_range_evolution") = false :=
    beq_eq_false_iff_ne.mpr h6
  have e7 : (k == "cladogenetic_geographical_range_evolution") = false :=
    beq_eq_false_iff_ne.mpr h7
  simp only [InphestModel.parse_definition, popOr, popFloat, popDict,
    lookupKey, eraseKey, List.find?, List.filter, e1, e2, e3, e4, e5, e6, e7,
    Bool.not_false, Option.map, floatOf, asDict, checkEmpty,
    popRateFunction, defaultRateFunction, Except.map, bind, Except.bind]

/-- C5 amended, witnessed at a concrete unrecognized top-level key. -/
theorem configuration_closure_amended_witness :
    InphestModel.parse_definition [("bogus_top", JVal.num 1)]
      = Except.error (PErr.typeError [("bogus_top", JVal.num 1)]) :=
  configuration_closure_amended.1 "bogus_top" (JVal.num 1) (by decide)

/-- C3 (code bug): `HostHistory.validate` does not maintain a running
distribution.  Lines 278 and 285 of model.py use `==` (a discarded
comparison) where the intended `=` assignment would update the bitlist, so
the replay checks every event against the unchanged start distribution.
Evaluating the code: the claim's positive scenario (gain at 0, loss at 1
from "010") passes — but the running distribution is never updated, and a
second gain of index 0, which the claim (and the method's own stated purpose
of reproducing the end state) requires to fail, also passes validation. -/
theorem validate_replay_never_updates_distribution :
    HostHistory.validate hhC3pos = Except.ok () ∧
    HostHistory.validate hhC3dbl = Except.ok () := by
  exact ⟨rfl, rfl⟩

end Inphest
